import Mathlib

/-!
Verification development for the sp-graph-api repository.

Python source is shallowly embedded: pure functions become Lean functions,
stateful store/status code becomes explicit state passing, Python exceptions
become `Option`/`Except` (`none` models a raised exception), Python `int`
becomes `Int`/`Nat`, and Python lists become `List`.
-/

/-! ## WeightScaler (src/commons/utils.py, scale_weights) -/

/-- Embedding of `np.argmax` on a list of Python ints: index of the first
occurrence of the maximum (numpy returns the first maximal index).
`np.argmax` raises on an empty sequence; callers model that case separately,
and `argmax [] = 0` is junk never relied upon. -/
def argmax : List Int → Nat
  | [] => 0
  | [_] => 0
  | x :: y :: xs =>
    let j := argmax (y :: xs)
    if x < (y :: xs).getD j 0 then j + 1 else 0

/-- The greedy increment loop of `scale_weights` (lines 105-110):
while `used < target_sum` and `remaining[argmax] > 0`, decrement the
maximal remaining capacity and increment the matching result bin.
`fuel` is exactly `target_sum - used`, so the fuel-zero case is the
`used < target_sum` exit; the returned `Nat` counts iterations
performed (the increase of `used`). -/
def scale_loop : List Int → List Int → Nat → List Int × List Int × Nat
  | res, rem, 0 => (res, rem, 0)
  | res, rem, fuel + 1 =>
    let i := argmax rem
    if 0 < rem.getD i 0 then
      let out := scale_loop (List.modify (· + 1) i res) (List.modify (· - 1) i rem) fuel
      (out.1, out.2.1, out.2.2 + 1)
    else
      (res, rem, 0)

/-- Embedding of `scale_weights` (src/commons/utils.py lines 73-123), with a
recursion-depth fuel for the self-call on the shortfall (the Python function
recurses on `target_sum - used`; `none` models a raised exception -- the
`ValueError` when `target_sum < len(relative_weights)` with `include_all`,
the `np.argmax` `ValueError` on an empty weight list -- or exhausted fuel,
which only happens on inputs where the Python diverges). -/
def scale_weights_rec : Nat → List Int → Int → Bool → Option (List Int)
  | 0, _, _, _ => none
  | fuel + 1, relative_weights, target_sum, include_all =>
    if target_sum < (relative_weights.length : Int) ∧ include_all = true then
      none
    else if relative_weights.isEmpty then
      none
    else
      let n := relative_weights.length
      let res0 := List.replicate n (if include_all then (1 : Int) else 0)
      let rem0 := if include_all then relative_weights.map (· - 1) else relative_weights
      let used0 : Int := if include_all then (n : Int) else 0
      let out := scale_loop res0 rem0 (target_sum - used0).toNat
      let res := out.1
      let used : Int := used0 + (out.2.2 : Int)
      if used < target_sum then
        (scale_weights_rec fuel relative_weights (target_sum - used) false).map
          (fun rec_ => res.zipWith (· + ·) rec_)
      else
        some res

/-- `scale_weights` with enough recursion fuel for every terminating input:
each recursive pass strictly decreases the (positive) shortfall. -/
def scale_weights (relative_weights : List Int) (target_sum : Int)
    (include_all : Bool := true) : Option (List Int) :=
  scale_weights_rec (target_sum.toNat + 1) relative_weights target_sum include_all

example : scale_weights [1, 2] 2 = some [1, 1] := by decide
example : scale_weights [1, 2] 3 = some [1, 2] := by decide
example : scale_weights [1, 2] 5 = some [2, 3] := by decide
example : scale_weights [2, 2] 7 = some [4, 3] := by decide
example : scale_weights [1] 5 = some [5] := by decide
example : scale_weights [] 0 = none := by decide

theorem argmax_lt_length : ∀ (l : List Int), l ≠ [] → argmax l < l.length
  | [x], _ => by simp [argmax]
  | x :: y :: xs, _ => by
    have ih := argmax_lt_length (y :: xs) (by simp)
    simp only [argmax]
    split
    · simp only [List.length_cons] at ih ⊢
      omega
    · simp

theorem getD_le_argmax :
    ∀ (l : List Int) (j : Nat), j < l.length → l.getD j 0 ≤ l.getD (argmax l) 0
  | [x], j, hj => by
    have hj0 : j = 0 := by simpa using Nat.lt_one_iff.mp (by simpa using hj)
    subst hj0
    simp [argmax]
  | x :: y :: xs, j, hj => by
    have ih := fun j hj => getD_le_argmax (y :: xs) j hj
    simp only [argmax]
    split
    · rename_i hlt
      match j with
      | 0 => simpa [List.getD] using le_of_lt hlt
      | j + 1 =>
        simp only [List.getD_cons_succ]
        exact ih j (by simpa using hj)
    · rename_i hge
      push_neg at hge
      match j with
      | 0 => simp [List.getD]
      | j + 1 =>
        simp only [List.getD_cons_succ, List.getD_cons_zero]
        exact le_trans (ih j (by simpa using hj)) hge

theorem getD_modify (f : Int → Int) (i : Nat) (l : List Int) (j : Nat) :
    (List.modify f i l).getD j 0 =
      if i = j ∧ j < l.length then f (l.getD j 0) else l.getD j 0 := by
  by_cases hj : j < l.length
  · have hj' : j < (List.modify f i l).length := by simpa [List.length_modify] using hj
    rw [List.getD_eq_getElem _ _ hj', List.getD_eq_getElem _ _ hj, List.getElem_modify]
    by_cases hij : i = j
    · simp [hij, hj]
    · simp [hij]
  · have h1 : (List.modify f i l).getD j 0 = 0 :=
      List.getD_eq_default _ _ (by simpa [List.length_modify] using Nat.le_of_not_lt hj)
    have h2 : l.getD j 0 = 0 := List.getD_eq_default _ _ (Nat.le_of_not_lt hj)
    rw [if_neg (fun h => hj h.2), h1, h2]

theorem scale_loop_succ_pos (res rem : List Int) (fuel : Nat)
    (h : 0 < rem.getD (argmax rem) 0) :
    scale_loop res rem (fuel + 1) =
      ((scale_loop (List.modify (· + 1) (argmax rem) res)
          (List.modify (· - 1) (argmax rem) rem) fuel).1,
       (scale_loop (List.modify (· + 1) (argmax rem) res)
          (List.modify (· - 1) (argmax rem) rem) fuel).2.1,
       (scale_loop (List.modify (· + 1) (argmax rem) res)
          (List.modify (· - 1) (argmax rem) rem) fuel).2.2 + 1) := by
  simp only [scale_loop]
  rw [if_pos h]

theorem scale_loop_succ_neg (res rem : List Int) (fuel : Nat)
    (h : ¬0 < rem.getD (argmax rem) 0) :
    scale_loop res rem (fuel + 1) = (res, rem, 0) := by
  simp only [scale_loop]
  rw [if_neg h]

theorem scale_loop_length_res :
    ∀ (fuel : Nat) (res rem : List Int), (scale_loop res rem fuel).1.length = res.length
  | 0, res, rem => rfl
  | fuel + 1, res, rem => by
    by_cases h : 0 < rem.getD (argmax rem) 0
    · rw [scale_loop_succ_pos res rem fuel h]
      simpa [List.length_modify] using
        scale_loop_length_res fuel (List.modify (· + 1) (argmax rem) res)
          (List.modify (· - 1) (argmax rem) rem)
    · rw [scale_loop_succ_neg res rem fuel h]

theorem scale_loop_iters_le :
    ∀ (fuel : Nat) (res rem : List Int), (scale_loop res rem fuel).2.2 ≤ fuel
  | 0, res, rem => Nat.le_refl 0
  | fuel + 1, res, rem => by
    by_cases h : 0 < rem.getD (argmax rem) 0
    · rw [scale_loop_succ_pos res rem fuel h]
      have := scale_loop_iters_le fuel (List.modify (· + 1) (argmax rem) res)
        (List.modify (· - 1) (argmax rem) rem)
      simpa using this
    · rw [scale_loop_succ_neg res rem fuel h]
      exact Nat.zero_le _

theorem sum_modify_add_one :
    ∀ (l : List Int) (i : Nat), i < l.length → (List.modify (· + 1) i l).sum = l.sum + 1
  | x :: xs, 0, _ => by
    rw [List.modify_zero_cons]
    simp
    ring
  | x :: xs, i + 1, hi => by
    rw [List.modify_succ_cons]
    have := sum_modify_add_one xs i (by simpa using hi)
    simp [this]
    ring

theorem scale_loop_sum :
    ∀ (fuel : Nat) (res rem : List Int), res.length = rem.length →
      (scale_loop res rem fuel).1.sum = res.sum + (scale_loop res rem fuel).2.2
  | 0, res, rem, _ => by simp [scale_loop]
  | fuel + 1, res, rem, hlen => by
    by_cases hpos : 0 < rem.getD (argmax rem) 0
    · have hrem : rem ≠ [] := by
        rintro rfl
        simp [List.getD] at hpos
      have hargl : argmax rem < rem.length := argmax_lt_length rem hrem
      have hargl' : argmax rem < res.length := by omega
      have ih := scale_loop_sum fuel (List.modify (· + 1) (argmax rem) res)
        (List.modify (· - 1) (argmax rem) rem)
        (by simp [List.length_modify, hlen])
      rw [scale_loop_succ_pos res rem fuel hpos]
      simp only [ih, sum_modify_add_one res (argmax rem) hargl']
      push_cast
      ring
    · rw [scale_loop_succ_neg res rem fuel hpos]
      simp

theorem scale_loop_mono :
    ∀ (fuel : Nat) (res rem : List Int) (j : Nat),
      res.getD j 0 ≤ (scale_loop res rem fuel).1.getD j 0
  | 0, res, rem, j => le_refl _
  | fuel + 1, res, rem, j => by
    by_cases hpos : 0 < rem.getD (argmax rem) 0
    · rw [scale_loop_succ_pos res rem fuel hpos]
      have ih := scale_loop_mono fuel (List.modify (· + 1) (argmax rem) res)
        (List.modify (· - 1) (argmax rem) rem) j
      refine le_trans ?_ ih
      rw [getD_modify]
      split
      · omega
      · exact le_refl _
    · rw [scale_loop_succ_neg res rem fuel hpos]

theorem scale_loop_pos (fuel : Nat) (res rem : List Int) (hfuel : 0 < fuel)
    (hpos : 0 < rem.getD (argmax rem) 0) : 1 ≤ (scale_loop res rem fuel).2.2 := by
  match fuel, hfuel with
  | fuel + 1, _ =>
    rw [scale_loop_succ_pos res rem fuel hpos]
    dsimp only
    omega

theorem getD_replicate_zero (n j : Nat) : (List.replicate n (0 : Int)).getD j 0 = 0 := by
  by_cases hj : j < n
  · rw [List.getD_eq_getElem _ _ (by simpa using hj)]
    simp
  · exact List.getD_eq_default _ _ (by simpa using Nat.le_of_not_lt hj)

theorem scale_weights_rec_false_eq (fuel : Nat) (w : List Int) (t : Int) (hw : w ≠ []) :
    scale_weights_rec (fuel + 1) w t false =
      (if ((scale_loop (List.replicate w.length 0) w t.toNat).2.2 : Int) < t then
        (scale_weights_rec fuel w
            (t - (scale_loop (List.replicate w.length 0) w t.toNat).2.2) false).map
          (fun rec_ => (scale_loop (List.replicate w.length 0) w t.toNat).1.zipWith (· + ·) rec_)
      else some (scale_loop (List.replicate w.length 0) w t.toNat).1) := by
  simp only [scale_weights_rec, Bool.false_eq_true, and_false, if_false, ite_false,
    List.isEmpty_eq_true, hw, sub_zero, zero_add]

theorem scale_weights_rec_true_eq (fuel : Nat) (w : List Int) (t : Int) (hw : w ≠ [])
    (hlen : (w.length : Int) ≤ t) :
    scale_weights_rec (fuel + 1) w t true =
      (if (w.length : Int) + ((scale_loop (List.replicate w.length 1) (w.map (· - 1))
            (t - w.length).toNat).2.2 : Int) < t then
        (scale_weights_rec fuel w
            (t - ((w.length : Int) + (scale_loop (List.replicate w.length 1) (w.map (· - 1))
              (t - w.length).toNat).2.2)) false).map
          (fun rec_ => (scale_loop (List.replicate w.length 1) (w.map (· - 1))
            (t - w.length).toNat).1.zipWith (· + ·) rec_)
      else some (scale_loop (List.replicate w.length 1) (w.map (· - 1))
        (t - w.length).toNat).1) := by
  simp only [scale_weights_rec, and_true, List.isEmpty_eq_true, hw, ite_true, ite_false,
    if_neg (not_lt.mpr hlen), not_lt.mpr hlen]

theorem sum_zipWith_add :
    ∀ (a b : List Int), a.length = b.length →
      (List.zipWith (· + ·) a b).sum = a.sum + b.sum
  | [], [], _ => by simp
  | x :: xs, y :: ys, h => by
    have := sum_zipWith_add xs ys (by simpa using h)
    simp [this]
    ring

theorem getD_zipWith_add :
    ∀ (a b : List Int), a.length = b.length → ∀ (j : Nat),
      (List.zipWith (· + ·) a b).getD j 0 = a.getD j 0 + b.getD j 0
  | [], [], _, j => by simp
  | x :: xs, y :: ys, h, 0 => by simp
  | x :: xs, y :: ys, h, j + 1 => by
    simpa using getD_zipWith_add xs ys (by simpa using h) j

theorem argmax_getD_pos (w : List Int) (hw : w ≠ []) (hpos : ∀ x ∈ w, 0 < x) :
    0 < w.getD (argmax w) 0 := by
  match w, hw with
  | x :: xs, _ =>
    have h0 : (x :: xs).getD 0 0 ≤ (x :: xs).getD (argmax (x :: xs)) 0 :=
      getD_le_argmax (x :: xs) 0 (by simp)
    simp only [List.getD_cons_zero] at h0
    exact lt_of_lt_of_le (hpos x (List.mem_cons_self x xs)) h0

/-- Behaviour of the `include_all=false` recursive passes of `scale_weights`
on positive weights: with enough fuel they return a list of the input's
length, with nonnegative entries, summing exactly to the (positive) target. -/
theorem scale_weights_rec_false_spec :
    ∀ (fuel : Nat) (w : List Int), w ≠ [] → (∀ x ∈ w, 0 < x) →
      ∀ t : Int, 1 ≤ t → t.toNat ≤ fuel →
        ∃ res, scale_weights_rec fuel w t false = some res ∧
          res.length = w.length ∧ (∀ j : Nat, 0 ≤ res.getD j 0) ∧ res.sum = t
  | 0, w, hw, hpos, t, ht, hfuel => by omega
  | fuel + 1, w, hw, hpos, t, ht, hfuel => by
    rw [scale_weights_rec_false_eq fuel w t hw]
    have hL : 1 ≤ t.toNat := by omega
    set res0 := List.replicate w.length (0 : Int) with hres0
    set k := (scale_loop res0 w t.toNat).2.2 with hk
    set res := (scale_loop res0 w t.toNat).1 with hres
    have hlen0 : res0.length = w.length := by simp [hres0]
    have hk1 : 1 ≤ k := scale_loop_pos t.toNat res0 w hL (argmax_getD_pos w hw hpos)
    have hkL : k ≤ t.toNat := scale_loop_iters_le t.toNat res0 w
    have hrlen : res.length = w.length := by
      rw [hres, scale_loop_length_res, hlen0]
    have hrsum : res.sum = (k : Int) := by
      have := scale_loop_sum t.toNat res0 w (by simp [hres0])
      rw [← hres, ← hk] at this
      simpa [hres0] using this
    have hrnn : ∀ j : Nat, 0 ≤ res.getD j 0 := by
      intro j
      have := scale_loop_mono t.toNat res0 w j
      rw [← hres] at this
      calc (0 : Int) = res0.getD j 0 := (getD_replicate_zero w.length j).symm
        _ ≤ res.getD j 0 := this
    by_cases hcase : (k : Int) < t
    · rw [if_pos hcase]
      obtain ⟨rres, hrr, hrrlen, hrrnn, hrrsum⟩ :=
        scale_weights_rec_false_spec fuel w hw hpos (t - k) (by omega) (by omega)
      refine ⟨res.zipWith (· + ·) rres, by rw [hrr]; rfl, ?_, ?_, ?_⟩
      · simp [List.length_zipWith, hrlen, hrrlen]
      · intro j
        rw [getD_zipWith_add res rres (by omega) j]
        exact add_nonneg (hrnn j) (hrrnn j)
      · rw [sum_zipWith_add res rres (by omega), hrsum, hrrsum]
        ring
    · rw [if_neg hcase]
      have hkt : (k : Int) = t := by omega
      exact ⟨res, rfl, hrlen, hrnn, by rw [hrsum, hkt]⟩

theorem getD_replicate_one (n j : Nat) (hj : j < n) :
    (List.replicate n (1 : Int)).getD j 0 = 1 := by
  rw [List.getD_eq_getElem _ _ (by simpa using hj)]
  simp

/-- Main correctness of `scale_weights` with `include_all=true` on non-empty
positive weights and a target at least the number of bins. -/
theorem scale_weights_true_spec (w : List Int) (hw : w ≠ []) (hpos : ∀ x ∈ w, 0 < x)
    (t : Int) (ht : (w.length : Int) ≤ t) :
    ∃ res, scale_weights w t true = some res ∧ res.length = w.length ∧
      (∀ j : Nat, j < res.length → 1 ≤ res.getD j 0) ∧ res.sum = t := by
  have hn1 : 1 ≤ w.length := List.length_pos.mpr hw
  have ht1 : 1 ≤ t := le_trans (by exact_mod_cast hn1) ht
  rw [scale_weights, scale_weights_rec_true_eq t.toNat w t hw ht]
  set res1 := List.replicate w.length (1 : Int) with hres1
  set rem1 := w.map (· - 1) with hrem1
  set L := (t - w.length).toNat with hLdef
  set k := (scale_loop res1 rem1 L).2.2 with hk
  set res := (scale_loop res1 rem1 L).1 with hres
  have hkL : k ≤ L := scale_loop_iters_le L res1 rem1
  have hkt : (w.length : Int) + (k : Int) ≤ t := by omega
  have hrlen : res.length = w.length := by
    rw [hres, scale_loop_length_res]
    simp [hres1]
  have hrsum : res.sum = (w.length : Int) + (k : Int) := by
    have := scale_loop_sum L res1 rem1 (by simp [hres1, hrem1])
    rw [← hres, ← hk] at this
    simpa [hres1] using this
  have hr1 : ∀ j : Nat, j < w.length → 1 ≤ res.getD j 0 := by
    intro j hj
    have := scale_loop_mono L res1 rem1 j
    rw [← hres] at this
    calc (1 : Int) = res1.getD j 0 := (getD_replicate_one w.length j hj).symm
      _ ≤ res.getD j 0 := this
  by_cases hcase : (w.length : Int) + (k : Int) < t
  · rw [if_pos hcase]
    obtain ⟨rres, hrr, hrrlen, hrrnn, hrrsum⟩ :=
      scale_weights_rec_false_spec t.toNat w hw hpos (t - ((w.length : Int) + k))
        (by omega) (by omega)
    refine ⟨res.zipWith (· + ·) rres, by rw [hrr]; rfl, ?_, ?_, ?_⟩
    · simp [List.length_zipWith, hrlen, hrrlen]
    · intro j hj
      rw [List.length_zipWith, hrlen, hrrlen, min_self] at hj
      rw [getD_zipWith_add res rres (by omega) j]
      have := hrrnn j
      have := hr1 j hj
      omega
    · rw [sum_zipWith_add res rres (by omega), hrsum, hrrsum]
      ring
  · rw [if_neg hcase]
    have : (w.length : Int) + (k : Int) = t := by omega
    exact ⟨res, rfl, hrlen, fun j hj => hr1 j (hrlen ▸ hj), by rw [hrsum, this]⟩

/-- C1 counterexample: the claim quantifies over every list of positive
weights and target `t ≥ len(w)`; for the empty list and `t = 0` these
hypotheses hold, yet `scale_weights` raises (the unconditional
`np.argmax(remaining)` on line 105 raises `ValueError` on an empty
sequence) instead of returning the empty list with sum `0`. -/
theorem scale_weights_empty_raises :
    (∀ x ∈ ([] : List Int), 0 < x) ∧ ((([] : List Int).length : Int) ≤ 0) ∧
      scale_weights [] 0 true = none :=
  ⟨by simp, by simp, by decide⟩

/-- C1 (amended to non-empty weight lists): for every non-empty list of
positive integer weights `w` and target `t ≥ len(w)`,
`scale_weights w t include_all=True` returns a list of the same length as
`w` whose entries are all `≥ 1` and sum exactly to `t`; moreover
`scale_weights [1,2] 2 = [1,1]`, `scale_weights [1,2] 3 = [1,2]` and
`scale_weights [1,2] 5 = [2,3]`. -/
theorem scale_weights_spec (w : List Int) (hw : w ≠ []) (hpos : ∀ x ∈ w, 0 < x)
    (t : Int) (ht : (w.length : Int) ≤ t) :
    (∃ res, scale_weights w t true = some res ∧ res.length = w.length ∧
      (∀ x ∈ res, 1 ≤ x) ∧ res.sum = t) ∧
    scale_weights [1, 2] 2 true = some [1, 1] ∧
    scale_weights [1, 2] 3 true = some [1, 2] ∧
    scale_weights [1, 2] 5 true = some [2, 3] := by
  obtain ⟨res, heq, hlen, hone, hsum⟩ := scale_weights_true_spec w hw hpos t ht
  refine ⟨⟨res, heq, hlen, ?_, hsum⟩, by decide, by decide, by decide⟩
  intro x hx
  obtain ⟨j, hj, hjx⟩ := List.mem_iff_getElem.mp hx
  have := hone j hj
  rwa [List.getD_eq_getElem _ _ hj, hjx] at this

/-- Witness for `scale_weights_spec` at `w = [1,2]`, `t = 5`. -/
theorem scale_weights_spec_witness :
    ([1, 2] : List Int) ≠ [] ∧ (∀ x ∈ ([1, 2] : List Int), 0 < x) ∧
      ((([1, 2] : List Int).length : Int) ≤ 5) ∧
      (∃ res, scale_weights [1, 2] 5 true = some res ∧ res.length = 2 ∧
        (∀ x ∈ res, 1 ≤ x) ∧ res.sum = 5) :=
  ⟨by decide, by decide, by decide, by
    obtain ⟨⟨res, h1, h2, h3, h4⟩, _⟩ :=
      scale_weights_spec [1, 2] (by decide) (by decide) 5 (by decide)
    exact ⟨res, h1, by simpa using h2, h3, h4⟩⟩

/-! ## Commons: values_to_str and commutative_hash (src/commons/utils.py) -/

/-- Embedding of `values_to_str` for a list argument: `sep.join(strip(v))`.
Python `str.strip` is modeled by `String.trim`. -/
def values_to_str (values : List String) (sep : String) : String :=
  String.intercalate sep (values.map String.trim)

/-- Embedding of `commutative_hash` (src/commons/utils.py lines 214-225) for
two string arguments: the sorted join of all characters of both arguments is
the canonical preimage handed to SHAKE-128.  The digest step is modeled by
the canonical preimage itself: the hash is a fixed injective-up-to-collision
image of it, and every claim only depends on equality of digests, which the
canonical preimage determines. -/
def commutative_hash (a b : String) : String :=
  String.mk (List.insertionSort (· ≤ ·) (a.data ++ b.data))

/-! ## GraphStore (src/items/store.py)

Node and edge attribute dictionaries are modeled by structures whose
`Option` fields mean "key present/absent"; `networkx.add_node`/`add_edge`
on an existing node/edge update the attribute dictionary in place, which is
modeled by field-wise `new <|> old` merging.  Graphs, sessions and the task
result store are association lists in Python dict insertion order. -/

/-- Association-list read: Python `d.get(k)` / `d[k]`. -/
def aget {V : Type} (l : List (String × V)) (k : String) : Option V :=
  (l.find? (fun p => p.1 = k)).map (·.2)

/-- Association-list write: Python `d[k] = v` (updates in place, preserving
insertion order, or appends a new binding). -/
def aset {V : Type} (l : List (String × V)) (k : String) (v : V) : List (String × V) :=
  if (l.find? (fun p => p.1 = k)).isSome then
    l.map (fun p => if p.1 = k then (p.1, v) else p)
  else
    l ++ [(k, v)]

theorem aset_cons_ne {V : Type} (q : String × V) (l : List (String × V)) (k : String)
    (v : V) (hq : q.1 ≠ k) : aset (q :: l) k v = q :: aset l k v := by
  unfold aset
  rw [List.find?_cons_of_neg _ (by simpa using hq)]
  split
  · simp [if_neg hq]
  · simp

theorem aget_aset {V : Type} (l : List (String × V)) (k : String) (v : V) :
    aget (aset l k v) k = some v := by
  induction l with
  | nil => simp [aget, aset, List.find?]
  | cons q l ih =>
    by_cases hq : q.1 = k
    · unfold aset
      rw [List.find?_cons_of_pos _ (by simpa using hq)]
      simp only [Option.isSome_some, if_true, ite_true, List.map_cons, if_pos hq]
      unfold aget
      rw [List.find?_cons_of_pos _ (by simpa using hq)]
      rfl
    · rw [aset_cons_ne q l k v hq]
      unfold aget
      rw [List.find?_cons_of_neg _ (by simpa using hq)]
      exact ih

/-- Modelled from the spec: `config.EDGE_WIDTH` is referenced by
`ItemStore.relate` but absent from src/config.py (stale config module); it
is a fixed numeric styling constant whose value no claim depends on. -/
def EDGE_WIDTH : Nat := 1

/-- `config.NodeColor.PRIMARY` (src/config.py line 40). -/
def NodeColor.PRIMARY : String := "#1ed760"

/-- Modelled from the spec: `config.NodeColor.BACKBONE` is referenced by
the graph expander but absent from src/config.py (stale config module); it
is a fixed color string whose value no claim depends on. -/
def NodeColor.BACKBONE : String := "#27ae60"

/-- Node attribute dictionary; `none` = key absent. -/
structure NodeProps where
  label : Option String := none
  title : Option String := none
  size : Option Nat := none
  color : Option String := none
  shape : Option String := none
  href : Option String := none
  preview_url : Option String := none
  expand_enabled : Option Bool := none
  selected_types : Option String := none
  task_id : Option String := none
  graph_key : Option String := none
  node_type : Option String := none
  depth : Option Nat := none
  image : Option String := none
  is_backbone : Option Bool := none
  deriving DecidableEq, Repr

/-- `dict.update` on two node attribute dictionaries (what
`networkx.add_node` does on an existing node): keys present in the new
dictionary override, others are kept. -/
def NodeProps.update (old new : NodeProps) : NodeProps where
  label := new.label <|> old.label
  title := new.title <|> old.title
  size := new.size <|> old.size
  color := new.color <|> old.color
  shape := new.shape <|> old.shape
  href := new.href <|> old.href
  preview_url := new.preview_url <|> old.preview_url
  expand_enabled := new.expand_enabled <|> old.expand_enabled
  selected_types := new.selected_types <|> old.selected_types
  task_id := new.task_id <|> old.task_id
  graph_key := new.graph_key <|> old.graph_key
  node_type := new.node_type <|> old.node_type
  depth := new.depth <|> old.depth
  image := new.image <|> old.image
  is_backbone := new.is_backbone <|> old.is_backbone

/-- Edge attribute dictionary: `width`, `id` and `unordered_id` are always
set by `relate`; the remaining keys come from its `**kwargs`. -/
structure EdgeProps where
  width : Nat
  id : String
  unordered_id : String
  is_backbone : Option Bool := none
  color : Option String := none
  hidden : Option Bool := none
  no_doubles : Option Bool := none
  deriving DecidableEq, Repr

/-- `dict.update` on edge attribute dictionaries for `add_edge` on an
existing edge. -/
def EdgeProps.update (old new : EdgeProps) : EdgeProps where
  width := new.width
  id := new.id
  unordered_id := new.unordered_id
  is_backbone := new.is_backbone <|> old.is_backbone
  color := new.color <|> old.color
  hidden := new.hidden <|> old.hidden
  no_doubles := new.no_doubles <|> old.no_doubles

/-- An `nx.DiGraph`: nodes in insertion order with their attributes, and at
most one directed edge per ordered pair, keyed by (source, target). -/
structure Graph where
  nodes : List (String × NodeProps)
  edges : List ((String × String) × EdgeProps)
  deriving DecidableEq, Repr

def Graph.empty : Graph := ⟨[], []⟩

/-- Keyed read on an attribute-dictionary list (generic version of `aget`
for arbitrary key types, e.g. the `(source, target)` edge keys). -/
def kfind {K V : Type} [DecidableEq K] (l : List (K × V)) (k : K) : Option V :=
  (l.find? (fun p => p.1 = k)).map (·.2)

/-- The networkx insert-or-update pattern: if an entry with key `k` exists,
update its value with `f` in place; otherwise append `(k, v0)`. -/
def kupsert {K V : Type} [DecidableEq K] (l : List (K × V)) (k : K) (f : V → V) (v0 : V) :
    List (K × V) :=
  if (l.find? (fun p => p.1 = k)).isSome then
    l.map (fun p => if p.1 = k then (p.1, f p.2) else p)
  else
    l ++ [(k, v0)]

/-- `nx.DiGraph.add_node`: insert, or update attributes of an existing node. -/
def Graph.add_node (g : Graph) (nid : String) (props : NodeProps) : Graph :=
  { g with nodes := kupsert g.nodes nid (·.update props) props }

/-- Add a node with an empty attribute dictionary if absent (what
`add_edge` does to missing endpoints); on an existing node `dict.update`
with an empty dictionary changes nothing. -/
def Graph.ensure_node (g : Graph) (nid : String) : Graph :=
  if (g.nodes.find? (fun p => p.1 = nid)).isSome then g
  else { g with nodes := g.nodes ++ [(nid, {})] }

/-- `nx.DiGraph.add_edge u v`: directed edge `u -> v`; missing endpoints are
added as attribute-less nodes; an existing `(u, v)` edge has its attribute
dictionary updated instead of being duplicated. -/
def Graph.add_edge (g : Graph) (u v : String) (props : EdgeProps) : Graph :=
  let g1 := (g.ensure_node u).ensure_node v
  { g1 with edges := kupsert g1.edges (u, v) (·.update props) props }

/-- Directed edge lookup. -/
def Graph.edge (g : Graph) (u v : String) : Option EdgeProps :=
  kfind g.edges (u, v)

/-- A published task snapshot: the node and edge projections of a graph
(`nodes_edges_to_list_of_dict` for both kinds). -/
structure Snapshot where
  nodes : List (String × NodeProps)
  edges : List ((String × String) × EdgeProps)
  deriving DecidableEq, Repr

/-- The item types handled by the graph expander (`DeezerWrapper.ALL_TYPES`);
`get_backbone_type` raises `KeyError` on anything else, so the embedding
restricts to these three. -/
inductive BType
  | artist
  | album
  | track
  deriving DecidableEq, Repr

/-- `ValidItem(...).value` for the three expander types. -/
def BType.value : BType → String
  | .artist => "artist"
  | .album => "album"
  | .track => "track"

/-- What the store and expander read off a catalog item (a parsed
`deezer.Resource`): its provider-assigned id, its type, and its popularity
percentage when known. -/
structure Resource where
  rid : String
  rtype : BType
  popularity : Option Int := none
  deriving DecidableEq, Repr

/-- The `ItemStore` singleton state (src/items/store.py): the global item
cache, per-session named graphs, plus the slice of the `StatusManager`
singleton written by `__add_nodes_edges_to_task` (task id -> last published
snapshot). -/
structure ItemStore where
  graphs : List (String × List (String × Graph))
  task_results : List (String × Snapshot)
  items : List (String × Resource)
  deriving DecidableEq, Repr

def ItemStore.empty : ItemStore := ⟨[], [], []⟩

/-- `ItemStore.get_graph`. -/
def ItemStore.get_graph (st : ItemStore) (session_id graph_key : String) : Option Graph :=
  (aget st.graphs session_id).bind (fun sess => aget sess graph_key)

/-- `ItemStore.init_session` (lines 105-114): create the session mapping if
absent (`is not None` check). -/
def ItemStore.init_session (st : ItemStore) (session_id : String) : ItemStore :=
  if (aget st.graphs session_id).isSome then st
  else { st with graphs := aset st.graphs session_id [] }

/-- `ItemStore.init_graph` (lines 116-127): ensure the session exists, then
create an empty `DiGraph` under `graph_key` if absent. -/
def ItemStore.init_graph (st : ItemStore) (session_id graph_key : String) : ItemStore :=
  let st1 := st.init_session session_id
  match aget st1.graphs session_id with
  | none => st1
  | some sess =>
    if (aget sess graph_key).isSome then st1
    else { st1 with graphs := aset st1.graphs session_id (aset sess graph_key Graph.empty) }

/-- Overwrite the graph stored under `(session_id, graph_key)` (both levels
must already exist for the Python subscript assignment not to raise). -/
def ItemStore.put_graph (st : ItemStore) (session_id graph_key : String) (g : Graph) :
    ItemStore :=
  match aget st.graphs session_id with
  | none => st
  | some sess => { st with graphs := aset st.graphs session_id (aset sess graph_key g) }

/-- `ItemStore.graph_key_from_keywords` (lines 79-81). -/
def ItemStore.graph_key_from_keywords (keywords : List String) : String :=
  values_to_str keywords "+"

/-- Truthiness of `self._graphs.get(session_id, {}).get(query_key)`: absent
is falsy, and an `nx.DiGraph` is falsy iff it has no nodes (`Graph.__len__`). -/
def graph_truthy : Option Graph → Bool
  | none => false
  | some g => !g.nodes.isEmpty

/-- The query-node attributes set by `set_query_node` (lines 201-213). -/
def query_node_props (query_kw : List String) (task_id query_key : String) : NodeProps where
  label := some (values_to_str query_kw " ")
  title := some "Query"
  size := some 50
  color := some NodeColor.PRIMARY
  shape := some "circle"
  href := some ("https://open.spotify.com/search/" ++ String.intercalate "%20" query_kw)
  task_id := some task_id
  graph_key := some query_key
  node_type := some "query"

/-- The unconditional tail of `set_query_node`: add the query node to the
(now existing) graph. -/
def ItemStore.set_query_node_finish (st : ItemStore) (session_id query_key : String)
    (query_kw : List String) (task_id : String) : ItemStore :=
  match st.get_graph session_id query_key with
  | none => st
  | some g =>
    st.put_graph session_id query_key
      (g.add_node query_key (query_node_props query_kw task_id query_key))

/-- `ItemStore.set_query_node` (src/items/store.py lines 176-214). -/
def ItemStore.set_query_node (st : ItemStore) (session_id : String)
    (query_kw : List String) (task_id : String) (override : Bool := false) :
    String × ItemStore :=
  let query_key := ItemStore.graph_key_from_keywords query_kw
  if graph_truthy (st.get_graph session_id query_key) then
    if !override then
      (query_key, st)
    else
      let st1 := st.put_graph session_id query_key Graph.empty
      let st2 := st1.init_graph session_id query_key
      (query_key, ItemStore.set_query_node_finish st2 session_id query_key query_kw task_id)
  else
    let st2 := st.init_graph session_id query_key
    (query_key, ItemStore.set_query_node_finish st2 session_id query_key query_kw task_id)

theorem get_graph_put_graph (st : ItemStore) (session_id graph_key : String) (g : Graph)
    (sess : List (String × Graph)) (h : aget st.graphs session_id = some sess) :
    (st.put_graph session_id graph_key g).get_graph session_id graph_key = some g := by
  unfold ItemStore.put_graph
  rw [h]
  unfold ItemStore.get_graph
  simp only [aget_aset, Option.bind_some]
  exact aget_aset sess graph_key g

theorem get_graph_some_session (st : ItemStore) (session_id graph_key : String) (g : Graph)
    (h : st.get_graph session_id graph_key = some g) :
    ∃ sess, aget st.graphs session_id = some sess := by
  unfold ItemStore.get_graph at h
  cases hs : aget st.graphs session_id with
  | none => rw [hs] at h; simp at h
  | some sess => exact ⟨sess, rfl⟩

theorem init_session_some (st : ItemStore) (session_id : String) :
    ∃ sess, aget (st.init_session session_id).graphs session_id = some sess := by
  unfold ItemStore.init_session
  split
  · rename_i h
    exact Option.isSome_iff_exists.mp h
  · exact ⟨[], aget_aset st.graphs session_id []⟩

theorem init_graph_exists (st : ItemStore) (session_id graph_key : String) :
    ∃ g, (st.init_graph session_id graph_key).get_graph session_id graph_key = some g := by
  simp only [ItemStore.init_graph]
  obtain ⟨sess, hsess⟩ := init_session_some st session_id
  rw [hsess]
  dsimp only
  split
  · rename_i h
    obtain ⟨g, hg⟩ := Option.isSome_iff_exists.mp h
    refine ⟨g, ?_⟩
    simp [ItemStore.get_graph, hsess, hg]
  · refine ⟨Graph.empty, ?_⟩
    simp [ItemStore.get_graph, aget_aset]

theorem kupsert_isEmpty_false {K V : Type} [DecidableEq K] (l : List (K × V)) (k : K)
    (f : V → V) (v0 : V) : (kupsert l k f v0).isEmpty = false := by
  unfold kupsert
  split
  · rename_i h
    obtain ⟨q, hq⟩ := Option.isSome_iff_exists.mp h
    have := List.mem_of_find?_eq_some hq
    cases l with
    | nil => simp at this
    | cons a t => simp
  · cases l <;> simp

theorem add_node_nodes_not_isEmpty (g : Graph) (nid : String) (p : NodeProps) :
    (g.add_node nid p).nodes.isEmpty = false := by
  unfold Graph.add_node
  dsimp only
  exact kupsert_isEmpty_false g.nodes nid _ p

theorem set_query_node_finish_truthy (st : ItemStore) (session_id graph_key : String)
    (query_kw : List String) (task_id : String) (g : Graph)
    (h : st.get_graph session_id graph_key = some g) :
    graph_truthy ((ItemStore.set_query_node_finish st session_id graph_key
      query_kw task_id).get_graph session_id graph_key) = true := by
  unfold ItemStore.set_query_node_finish
  rw [h]
  obtain ⟨sess, hsess⟩ := get_graph_some_session st session_id graph_key g h
  rw [get_graph_put_graph st session_id graph_key _ sess hsess]
  simp only [graph_truthy, add_node_nodes_not_isEmpty, Bool.not_false]

theorem set_query_node_truthy (st : ItemStore) (session_id : String)
    (query_kw : List String) (task_id : String) (override : Bool) :
    graph_truthy ((st.set_query_node session_id query_kw task_id override).2.get_graph
      session_id (ItemStore.graph_key_from_keywords query_kw)) = true := by
  unfold ItemStore.set_query_node
  by_cases htru : graph_truthy (st.get_graph session_id
      (ItemStore.graph_key_from_keywords query_kw)) = true
  · rw [if_pos htru]
    cases override with
    | false => simpa using htru
    | true =>
      simp only [Bool.not_true, if_false, ite_false]
      obtain ⟨g, hg⟩ := init_graph_exists
        (st.put_graph session_id (ItemStore.graph_key_from_keywords query_kw) Graph.empty)
        session_id (ItemStore.graph_key_from_keywords query_kw)
      exact set_query_node_finish_truthy _ _ _ _ _ g hg
  · rw [if_neg htru]
    obtain ⟨g, hg⟩ := init_graph_exists st session_id
      (ItemStore.graph_key_from_keywords query_kw)
    exact set_query_node_finish_truthy _ _ _ _ _ g hg

/-- C3: for every store state, session id, keyword list and task ids, a
second `set_query_node` with the same keywords and `override=False` returns
the same graph key as the first call and leaves the entire store state
unchanged (so nothing in the graph -- neither the query node nor any node
or edge -- is touched by the second call). -/
theorem set_query_node_idempotent (st : ItemStore) (session_id : String)
    (query_kw : List String) (task_id task_id2 : String) (override : Bool) :
    ((st.set_query_node session_id query_kw task_id override).2.set_query_node
        session_id query_kw task_id2 false) =
      ((st.set_query_node session_id query_kw task_id override).1,
       (st.set_query_node session_id query_kw task_id override).2) := by
  have htru := set_query_node_truthy st session_id query_kw task_id override
  have hkey : (st.set_query_node session_id query_kw task_id override).1 =
      ItemStore.graph_key_from_keywords query_kw := by
    simp only [ItemStore.set_query_node]
    split
    · split <;> rfl
    · rfl
  set r := st.set_query_node session_id query_kw task_id override with hr
  rw [hkey]
  simp only [ItemStore.set_query_node, htru, if_true, ite_true, Bool.not_false]

/-- `nodes_edges_to_list_of_dict` applied to both kinds plus
`StatusManager().set_intermediate_result` -- the body of
`ItemStore.__add_nodes_edges_to_task` (lines 414-440): publish the node and
edge projections of the graph under the task id. -/
def ItemStore.add_nodes_edges_to_task (st : ItemStore) (session_id graph_key task_id : String) :
    ItemStore :=
  match st.get_graph session_id graph_key with
  | none => st
  | some g =>
    { st with task_results := aset st.task_results task_id ⟨g.nodes, g.edges⟩ }

/-- `ItemStore.relate` (src/items/store.py lines 358-393): for each child id,
`add_edge(child_id, parent_id, width=.., id=f"parent_child",
unordered_id=commutative_hash(parent, child), **kwargs)` -- the directed
edge goes from the CHILD to the PARENT ("children first for color").  The
`**kwargs` seen at call sites are `is_backbone`, `color` and `hidden`; a
caller-supplied `no_doubles=True` is likewise swallowed into `**kwargs` and
becomes a plain edge attribute (the function has no dedup logic).
`none` models the `KeyError` raised when the session or graph is missing.
`children_ids` is a Python set; it is modeled as the list of its iteration
order (no claim depends on that order). -/
def ItemStore.relate (st : ItemStore) (session_id graph_key parent_id : String)
    (children_ids : List String) (task_id : Option String := none)
    (is_backbone : Option Bool := none) (color : Option String := none)
    (hidden : Option Bool := none) (no_doubles : Option Bool := none) : Option ItemStore :=
  match aget st.graphs session_id with
  | none => none
  | some sess =>
    match aget sess graph_key with
    | none => none
    | some g =>
      let g' := children_ids.foldl (fun acc child_id =>
        acc.add_edge child_id parent_id
          { width := EDGE_WIDTH
            id := parent_id ++ "_" ++ child_id
            unordered_id := commutative_hash parent_id child_id
            is_backbone := is_backbone
            color := color
            hidden := hidden
            no_doubles := no_doubles }) g
      let st' := { st with graphs := aset st.graphs session_id (aset sess graph_key g') }
      match task_id with
      | none => some st'
      | some tid => some (st'.add_nodes_edges_to_task session_id graph_key tid)

theorem kupsert_cons_ne {K V : Type} [DecidableEq K] (q : K × V) (l : List (K × V))
    (k : K) (f : V → V) (v0 : V) (hq : q.1 ≠ k) :
    kupsert (q :: l) k f v0 = q :: kupsert l k f v0 := by
  unfold kupsert
  rw [List.find?_cons_of_neg _ (by simpa using hq)]
  split
  · simp [if_neg hq]
  · simp

theorem kfind_kupsert_self {K V : Type} [DecidableEq K] (l : List (K × V)) (k : K)
    (f : V → V) (v0 : V) :
    kfind (kupsert l k f v0) k = some ((kfind l k).elim v0 f) := by
  induction l with
  | nil => simp [kfind, kupsert, List.find?]
  | cons q l ih =>
    by_cases hq : q.1 = k
    · unfold kupsert
      rw [List.find?_cons_of_pos _ (by simpa using hq)]
      simp only [Option.isSome_some, if_true, ite_true, List.map_cons, if_pos hq]
      unfold kfind
      rw [List.find?_cons_of_pos _ (by simpa using hq),
        List.find?_cons_of_pos _ (by simpa using hq)]
      rfl
    · rw [kupsert_cons_ne q l k f v0 hq]
      unfold kfind
      rw [List.find?_cons_of_neg _ (by simpa using hq),
        List.find?_cons_of_neg _ (by simpa using hq)]
      exact ih

theorem kfind_map_update_ne {K V : Type} [DecidableEq K] (l : List (K × V)) (k k' : K)
    (f : V → V) (h : k' ≠ k) :
    kfind (l.map (fun p => if p.1 = k then (p.1, f p.2) else p)) k' = kfind l k' := by
  induction l with
  | nil => rfl
  | cons r t iht =>
    by_cases hr : r.1 = k
    · unfold kfind
      have hr' : ¬r.1 = k' := by rw [hr]; exact fun hh => h hh.symm
      simp only [List.map_cons, if_pos hr]
      rw [List.find?_cons_of_neg _ (by simpa using hr'),
        List.find?_cons_of_neg _ (by simpa using hr')]
      exact iht
    · by_cases hr' : r.1 = k'
      · unfold kfind
        simp only [List.map_cons, if_neg hr]
        rw [List.find?_cons_of_pos _ (by simpa using hr'),
          List.find?_cons_of_pos _ (by simpa using hr')]
      · unfold kfind
        simp only [List.map_cons, if_neg hr]
        rw [List.find?_cons_of_neg _ (by simpa using hr'),
          List.find?_cons_of_neg _ (by simpa using hr')]
        exact iht

theorem kfind_kupsert_ne {K V : Type} [DecidableEq K] (l : List (K × V)) (k k' : K)
    (f : V → V) (v0 : V) (h : k' ≠ k) :
    kfind (kupsert l k f v0) k' = kfind l k' := by
  induction l with
  | nil =>
    have h2 : k ≠ k' := Ne.symm h
    simp [kfind, kupsert, List.find?, h2]
  | cons q l ih =>
    by_cases hq : q.1 = k
    · unfold kupsert
      rw [List.find?_cons_of_pos _ (by simpa using hq)]
      simp only [Option.isSome_some, if_true, ite_true, List.map_cons, if_pos hq]
      unfold kfind
      have hq' : ¬q.1 = k' := by rw [hq]; exact fun hh => h hh.symm
      rw [List.find?_cons_of_neg _ (by simpa using hq'),
        List.find?_cons_of_neg _ (by simpa using hq')]
      exact kfind_map_update_ne l k k' f h
    · rw [kupsert_cons_ne q l k f v0 hq]
      by_cases hq' : q.1 = k'
      · unfold kfind
        rw [List.find?_cons_of_pos _ (by simpa using hq'),
          List.find?_cons_of_pos _ (by simpa using hq')]
      · unfold kfind
        rw [List.find?_cons_of_neg _ (by simpa using hq'),
          List.find?_cons_of_neg _ (by simpa using hq')]
        exact ih

theorem ensure_node_edges (g : Graph) (nid : String) : (g.ensure_node nid).edges = g.edges := by
  unfold Graph.ensure_node
  split <;> rfl

theorem add_edge_edges (g : Graph) (u v : String) (props : EdgeProps) :
    (g.add_edge u v props).edges = kupsert g.edges (u, v) (·.update props) props := by
  unfold Graph.add_edge
  dsimp only
  rw [ensure_node_edges, ensure_node_edges]

theorem add_edge_edge_self (g : Graph) (u v : String) (props : EdgeProps) :
    ∃ q, (g.add_edge u v props).edge u v = some q ∧ q.width = props.width ∧
      q.id = props.id ∧ q.unordered_id = props.unordered_id := by
  unfold Graph.edge
  rw [add_edge_edges, kfind_kupsert_self]
  cases h : kfind g.edges (u, v) with
  | none => exact ⟨props, rfl, rfl, rfl, rfl⟩
  | some q0 => exact ⟨q0.update props, rfl, rfl, rfl, rfl⟩

theorem add_edge_edge_ne (g : Graph) (u v u' v' : String) (props : EdgeProps)
    (h : (u', v') ≠ (u, v)) : (g.add_edge u v props).edge u' v' = g.edge u' v' := by
  unfold Graph.edge
  rw [add_edge_edges, kfind_kupsert_ne _ _ _ _ _ h]

/-- The edge attributes built by one `relate` iteration for one child. -/
def relate_edge_props (parent_id child_id : String) (is_backbone : Option Bool)
    (color : Option String) (hidden : Option Bool) (no_doubles : Option Bool) : EdgeProps where
  width := EDGE_WIDTH
  id := parent_id ++ "_" ++ child_id
  unordered_id := commutative_hash parent_id child_id
  is_backbone := is_backbone
  color := color
  hidden := hidden
  no_doubles := no_doubles

theorem relate_fold_preserve (parent_id : String) (mk : String → EdgeProps) :
    ∀ (children : List String) (g : Graph) (c0 : String), c0 ∉ children →
      (children.foldl (fun acc child_id => acc.add_edge child_id parent_id (mk child_id)) g).edge
          c0 parent_id = g.edge c0 parent_id
  | [], g, c0, _ => rfl
  | c :: cs, g, c0, h => by
    have hc0 : c0 ≠ c := fun hh => h (hh ▸ List.mem_cons_self c cs)
    have hcs : c0 ∉ cs := fun hh => h (List.mem_cons_of_mem c hh)
    simp only [List.foldl_cons]
    rw [relate_fold_preserve parent_id mk cs _ c0 hcs,
      add_edge_edge_ne g c parent_id c0 parent_id (mk c) (by simp [hc0])]

theorem relate_fold_edge (parent_id : String) (mk : String → EdgeProps) :
    ∀ (children : List String) (g : Graph) (c : String), c ∈ children →
      ∃ q, (children.foldl (fun acc child_id =>
          acc.add_edge child_id parent_id (mk child_id)) g).edge c parent_id = some q ∧
        q.width = (mk c).width ∧ q.id = (mk c).id ∧ q.unordered_id = (mk c).unordered_id
  | c' :: cs, g, c, hc => by
    simp only [List.foldl_cons]
    by_cases hmem : c ∈ cs
    · exact relate_fold_edge parent_id mk cs _ c hmem
    · have hcc : c = c' := by
        cases List.mem_cons.mp hc with
        | inl h => exact h
        | inr h => exact absurd h hmem
      subst hcc
      rw [relate_fold_preserve parent_id mk cs _ c hmem]
      exact add_edge_edge_self g c parent_id (mk c)

theorem add_nodes_edges_to_task_graphs (st : ItemStore) (session_id graph_key task_id : String) :
    (st.add_nodes_edges_to_task session_id graph_key task_id).graphs = st.graphs := by
  unfold ItemStore.add_nodes_edges_to_task
  cases st.get_graph session_id graph_key <;> rfl

/-- What a successful `relate` does to the graphs map: it stores, under the
same session and graph key, the input graph extended by one child→parent
edge per child. -/
theorem relate_graphs (st : ItemStore) (session_id graph_key parent_id : String)
    (children_ids : List String) (task_id : Option String) (is_backbone : Option Bool)
    (color : Option String) (hidden : Option Bool) (no_doubles : Option Bool)
    (st' : ItemStore)
    (h : st.relate session_id graph_key parent_id children_ids task_id is_backbone
      color hidden no_doubles = some st') :
    ∃ sess g, aget st.graphs session_id = some sess ∧ aget sess graph_key = some g ∧
      st'.graphs = aset st.graphs session_id (aset sess graph_key
        (children_ids.foldl (fun acc child_id => acc.add_edge child_id parent_id
          (relate_edge_props parent_id child_id is_backbone color hidden no_doubles)) g)) := by
  unfold ItemStore.relate at h
  cases hsess : aget st.graphs session_id with
  | none => rw [hsess] at h; exact absurd h (by simp)
  | some sess =>
    rw [hsess] at h
    dsimp only at h
    cases hg : aget sess graph_key with
    | none => rw [hg] at h; exact absurd h (by simp)
    | some g =>
      rw [hg] at h
      dsimp only at h
      refine ⟨sess, g, rfl, hg, ?_⟩
      cases task_id with
      | none =>
        simp only [Option.some_inj] at h
        rw [← h]
        rfl
      | some tid =>
        simp only [Option.some_inj] at h
        rw [← h, add_nodes_edges_to_task_graphs]
        rfl

/-- C5 (amended): each edge inserted by
`relate(session_id, graph_key, parent_id, children_ids, ...)` is the
directed edge `child -> parent` (child as source, parent as target), with
edge id `f"{parent_id}_{child_id}"` and
`unordered_id = commutative_hash(parent_id, child_id)`; no `parent -> child`
edge is inserted. -/
theorem relate_inserts_child_to_parent (st : ItemStore)
    (session_id graph_key parent_id : String) (children_ids : List String)
    (task_id : Option String) (is_backbone : Option Bool) (color : Option String)
    (hidden : Option Bool) (no_doubles : Option Bool) (st' : ItemStore)
    (h : st.relate session_id graph_key parent_id children_ids task_id is_backbone
      color hidden no_doubles = some st')
    (c : String) (hc : c ∈ children_ids) :
    ∃ g q, st'.get_graph session_id graph_key = some g ∧ g.edge c parent_id = some q ∧
      q.width = EDGE_WIDTH ∧ q.id = parent_id ++ "_" ++ c ∧
      q.unordered_id = commutative_hash parent_id c := by
  obtain ⟨sess, g, hsess, hg, hgr⟩ := relate_graphs st session_id graph_key parent_id
    children_ids task_id is_backbone color hidden no_doubles st' h
  obtain ⟨q, hq, hw, hid, hu⟩ := relate_fold_edge parent_id
    (fun child_id => relate_edge_props parent_id child_id is_backbone color hidden no_doubles)
    children_ids g c hc
  refine ⟨_, q, ?_, hq, hw, hid, hu⟩
  unfold ItemStore.get_graph
  rw [hgr, aget_aset]
  exact aget_aset sess graph_key _

/-- The graph produced by a single `relate("s","g","p",\x7b"c"\x7d)` call on a
freshly initialized store. -/
def relate_demo_graph : Option Graph :=
  ((ItemStore.empty.init_graph "s" "g").relate "s" "g" "p" ["c"]).bind
    (fun st => st.get_graph "s" "g")

/-- C5 counterexample: after `relate` with parent `"p"` and child `"c"` on a
fresh graph, there is NO directed edge `p -> c` (the direction the claim
asserts); the inserted edge is `c -> p`. -/
theorem relate_direction_counterexample :
    relate_demo_graph.map (fun g => g.edge "p" "c") = some none ∧
    relate_demo_graph.map (fun g => (g.edge "c" "p").isSome) = some true := by
  constructor
  · decide
  · decide

/-- Witness for `relate_inserts_child_to_parent` at the store of
`relate_demo_graph`. -/
theorem relate_inserts_child_to_parent_witness :
    ∃ st', (ItemStore.empty.init_graph "s" "g").relate "s" "g" "p" ["c"] = some st' ∧
      ∃ g q, st'.get_graph "s" "g" = some g ∧ g.edge "c" "p" = some q ∧
        q.width = EDGE_WIDTH ∧ q.id = "p" ++ "_" ++ "c" ∧
        q.unordered_id = commutative_hash "p" "c" := by
  match hst : (ItemStore.empty.init_graph "s" "g").relate "s" "g" "p" ["c"] with
  | none => exact absurd hst (by decide)
  | some st' =>
    exact ⟨st', rfl, relate_inserts_child_to_parent _ _ _ _ _ _ _ _ _ _ st' hst "c"
      (List.mem_singleton.mpr rfl)⟩

theorem countP_kupsert_le_one {K V : Type} [DecidableEq K] (l : List (K × V)) (k : K)
    (f : V → V) (v0 : V) (hl : ∀ k'' : K, l.countP (fun p => p.1 = k'') ≤ 1) (k' : K) :
    (kupsert l k f v0).countP (fun p => p.1 = k') ≤ 1 := by
  unfold kupsert
  split
  · rw [List.countP_map]
    calc List.countP ((fun p : K × V => decide (p.1 = k')) ∘
          (fun p : K × V => if p.1 = k then (p.1, f p.2) else p)) l
        = List.countP (fun p : K × V => p.1 = k') l := by
          apply List.countP_congr
          intro x _
          by_cases hx : x.1 = k <;> simp [Function.comp, hx]
      _ ≤ 1 := hl k'
  · rename_i hnone
    rw [List.countP_append]
    by_cases hk : k' = k
    · subst hk
      have h0 : l.countP (fun p => p.1 = k') = 0 := by
        rw [List.countP_eq_zero]
        intro a ha
        have := List.find?_eq_none.mp (Option.not_isSome_iff_eq_none.mp hnone) a ha
        simpa using this
      rw [h0, List.countP_cons_of_pos _ _ (by simp), List.countP_nil]
    · have h1 : List.countP (fun p : K × V => p.1 = k') [(k, v0)] = 0 := by
        simp [List.countP, List.countP.go, hk, Ne.symm hk]
      rw [h1]
      simpa using hl k'

/-- The at-most-one-directed-edge-per-ordered-pair property of every graph
in a store (what `nx.DiGraph` keying actually guarantees). -/
def edge_unique (st : ItemStore) : Prop :=
  ∀ (session_id graph_key : String) (g : Graph),
    st.get_graph session_id graph_key = some g →
    ∀ key : String × String, g.edges.countP (fun p => p.1 = key) ≤ 1

theorem add_edge_countP (g : Graph) (u v : String) (props : EdgeProps)
    (hg : ∀ key : String × String, g.edges.countP (fun p => p.1 = key) ≤ 1)
    (key : String × String) :
    (g.add_edge u v props).edges.countP (fun p => p.1 = key) ≤ 1 := by
  rw [add_edge_edges]
  exact countP_kupsert_le_one g.edges (u, v) _ props hg key

theorem relate_fold_countP (parent_id : String) (mk : String → EdgeProps) :
    ∀ (children : List String) (g : Graph),
      (∀ key : String × String, g.edges.countP (fun p => p.1 = key) ≤ 1) →
      ∀ key : String × String,
        ((children.foldl (fun acc child_id =>
          acc.add_edge child_id parent_id (mk child_id)) g).edges.countP
            (fun p => p.1 = key)) ≤ 1
  | [], g, hg, key => hg key
  | c :: cs, g, hg, key => by
    simp only [List.foldl_cons]
    exact relate_fold_countP parent_id mk cs (g.add_edge c parent_id (mk c))
      (add_edge_countP g c parent_id (mk c) hg) key

theorem aget_eq_kfind {V : Type} (l : List (String × V)) (k : String) :
    aget l k = kfind l k := rfl

theorem aget_aset_ne {V : Type} (l : List (String × V)) (k k' : String) (v : V)
    (h : k' ≠ k) : aget (aset l k v) k' = aget l k' := by
  rw [aget_eq_kfind, aget_eq_kfind]
  show kfind (kupsert l k (fun _ => v) v) k' = kfind l k'
  exact kfind_kupsert_ne l k k' _ v h

/-- C2 (amended): `relate` has no `no_doubles` parameter and performs no
unordered-id deduplication (a `no_doubles=True` argument is swallowed by
`**kwargs` into a plain edge attribute).  What does hold, for every sequence
of `relate` calls: each graph keeps at most ONE directed edge per ordered
pair `(a, b)` (the `nx.DiGraph` keying); opposite-direction edges `a -> b`
and `b -> a` with the same `unordered_id` can coexist (see the
counterexample). -/
theorem relate_ordered_pair_unique :
    edge_unique ItemStore.empty ∧
    ∀ (st : ItemStore) (sid1 gk1 parent_id : String)
      (children_ids : List String) (task_id : Option String) (is_backbone : Option Bool)
      (color : Option String) (hidden : Option Bool) (no_doubles : Option Bool)
      (st' : ItemStore),
      edge_unique st →
      st.relate sid1 gk1 parent_id children_ids task_id is_backbone
        color hidden no_doubles = some st' →
      edge_unique st' := by
  constructor
  · intro sid gk g h key
    simp [ItemStore.get_graph, ItemStore.empty, aget] at h
  · intro st sid1 gk1 parent_id children_ids task_id is_backbone color
      hidden no_doubles st' hinv h
    obtain ⟨sess, g, hsess, hg, hgr⟩ := relate_graphs st sid1 gk1 parent_id
      children_ids task_id is_backbone color hidden no_doubles st' h
    intro sid gk g2 h2 key
    unfold ItemStore.get_graph at h2
    rw [hgr] at h2
    by_cases hsid : sid = sid1
    · rw [hsid, aget_aset] at h2
      simp only [Option.some_bind] at h2
      by_cases hgk : gk = gk1
      · rw [hgk, aget_aset] at h2
        obtain rfl : _ = g2 := Option.some_inj.mp h2
        exact relate_fold_countP parent_id _ children_ids g
          (fun key => hinv sid1 gk1 g
            (by unfold ItemStore.get_graph; rw [hsess, Option.some_bind, hg]) key) key
      · rw [aget_aset_ne _ _ _ _ hgk] at h2
        exact hinv sid gk g2
          (by unfold ItemStore.get_graph; rw [hsid, hsess, Option.some_bind]; exact h2) key
    · rw [aget_aset_ne _ _ _ _ hsid] at h2
      exact hinv sid gk g2 (by unfold ItemStore.get_graph; exact h2) key

theorem aget_singleton {V : Type} (k k' : String) (v : V) :
    aget [(k, v)] k' = if k = k' then some v else none := by
  unfold aget
  by_cases hk : k = k'
  · rw [List.find?_cons_of_pos _ (by simpa using hk), if_pos hk]
    rfl
  · rw [List.find?_cons_of_neg _ (by simpa using hk), if_neg hk]
    rfl

/-- The graph after two opposite-direction `relate` calls between `"a"` and
`"b"`, both passing a `no_doubles=True` keyword. -/
def no_doubles_demo_graph : Option Graph :=
  ((ItemStore.empty.init_graph "s" "g").relate "s" "g" "a" ["b"] none none none none
      (some true)).bind
    (fun st1 => (st1.relate "s" "g" "b" ["a"] none none none none (some true)).bind
      (fun st2 => st2.get_graph "s" "g"))

/-- C2 counterexample: after `relate(parent="a", children=\x7b"b"\x7d)` followed by
`relate(parent="b", children=\x7b"a"\x7d)`, both with a `no_doubles=True`
argument, TWO edges exist between `"a"` and `"b"` (one per direction), and
their `unordered_id`s are equal -- two edges with the same `unordered_id`
coexist, refuting the claim. -/
theorem relate_no_doubles_counterexample :
    no_doubles_demo_graph.map (fun g =>
        (g.edges.countP (fun p => p.1 = ("a", "b") ∨ p.1 = ("b", "a")),
         g.edges.map (fun p => p.2.unordered_id))) =
      some (2, [commutative_hash "a" "b", commutative_hash "a" "b"]) := by decide

/-- Witness for `relate_ordered_pair_unique` at a concrete store. -/
theorem relate_ordered_pair_unique_witness :
    ∃ st', (ItemStore.empty.init_graph "s" "g").relate "s" "g" "a" ["b"] = some st' ∧
      edge_unique st' := by
  have hst0 : ItemStore.empty.init_graph "s" "g" =
      ⟨[("s", [("g", Graph.empty)])], [], []⟩ := by decide
  have hinv : edge_unique (ItemStore.empty.init_graph "s" "g") := by
    intro sid gk g h key
    rw [hst0] at h
    unfold ItemStore.get_graph at h
    dsimp only at h
    rw [aget_singleton] at h
    by_cases h1 : "s" = sid
    · rw [if_pos h1] at h
      simp only [Option.some_bind] at h
      rw [aget_singleton] at h
      by_cases h2 : "g" = gk
      · rw [if_pos h2] at h
        obtain rfl : Graph.empty = g := Option.some_inj.mp h
        simp [Graph.empty]
      · rw [if_neg h2] at h
        exact absurd h (by simp)
    · rw [if_neg h1] at h
      exact absurd h (by simp)
  match hst : (ItemStore.empty.init_graph "s" "g").relate "s" "g" "a" ["b"] with
  | none => exact absurd hst (by decide)
  | some st' =>
    exact ⟨st', rfl,
      relate_ordered_pair_unique.2 _ _ _ _ _ _ _ _ _ _ st' hinv hst⟩

/-! ## StatusManager and Task (src/status/status_manager.py, src/tasks/task.py)

The `StatusManager` singleton's three dicts become association lists over an
abstract result type `V` and error type `E` (a stored Python exception is a
value of `E`).  A task target is a state transformer that may also touch the
manager (e.g. publish intermediate results) and either returns a value --
`Except.ok`, with `Option V` distinguishing a Python `None` return -- or
raises -- `Except.error`. -/

inductive ValidStatus
  | idle
  | running
  | created
  | failed
  | completed
  | not_found
  deriving DecidableEq, Repr

/-- `ValidStatus(...).value`. -/
def ValidStatus.value : ValidStatus → String
  | .idle => "idle"
  | .running => "running"
  | .created => "created"
  | .failed => "failed"
  | .completed => "completed"
  | .not_found => "not_found"

structure StatusManager (V E : Type) where
  status : List (String × ValidStatus)
  results : List (String × V)
  errors : List (String × E)
  deriving DecidableEq, Repr

/-- `StatusManager._set_status` (lines 26-35): set the status, and store the
error only when one is given (`if error is not None`). -/
def StatusManager.set_status {V E : Type} (sm : StatusManager V E) (task_id : String)
    (status : ValidStatus) (error : Option E := none) : StatusManager V E :=
  { sm with
    status := aset sm.status task_id status
    errors := match error with
      | none => sm.errors
      | some e => aset sm.errors task_id e }

/-- `StatusManager._set_result` (lines 37-38). -/
def StatusManager.set_result {V E : Type} (sm : StatusManager V E) (task_id : String)
    (result : V) : StatusManager V E :=
  { sm with results := aset sm.results task_id result }

/-- `StatusManager.create_task` (lines 51-52). -/
def StatusManager.create_task {V E : Type} (sm : StatusManager V E) (task_id : String) :
    StatusManager V E :=
  sm.set_status task_id .created

/-- `StatusManager.run_task` (lines 54-55). -/
def StatusManager.run_task {V E : Type} (sm : StatusManager V E) (task_id : String) :
    StatusManager V E :=
  sm.set_status task_id .running

/-- `StatusManager.set_intermediate_result` (lines 57-58): overwrite the
stored result without touching the status. -/
def StatusManager.set_intermediate_result {V E : Type} (sm : StatusManager V E)
    (task_id : String) (result : V) : StatusManager V E :=
  sm.set_result task_id result

/-- `StatusManager.fail_task` (lines 60-63). -/
def StatusManager.fail_task {V E : Type} (sm : StatusManager V E) (task_id : String)
    (error : Option E := none) : StatusManager V E :=
  sm.set_status task_id .failed error

/-- `StatusManager.complete_task` (lines 65-74): set the status, and store
the result only when it is not `None`. -/
def StatusManager.complete_task {V E : Type} (sm : StatusManager V E) (task_id : String)
    (status : ValidStatus) (result : Option V := none) : StatusManager V E :=
  let sm1 := sm.set_status task_id status
  match result with
  | none => sm1
  | some r => sm1.set_result task_id r

/-- `StatusManager.get_status` (lines 76-77): `not_found` for an unknown id. -/
def StatusManager.get_status {V E : Type} (sm : StatusManager V E) (task_id : String) :
    String :=
  ((aget sm.status task_id).getD .not_found).value

/-- The observable answer of `get_status_and_result` (lines 79-96).  The
Python merges a dict-valued result into the top level of the returned dict;
the model keeps the three observable components -- status string, stored
result (if any), stored error (if any) -- as separate fields. -/
structure StatusAndResult (V E : Type) where
  status : String
  result : Option V
  error : Option E
  deriving DecidableEq, Repr

def StatusManager.get_status_and_result {V E : Type} (sm : StatusManager V E)
    (task_id : String) : StatusAndResult V E where
  status := ((aget sm.status task_id).getD .not_found).value
  result := aget sm.results task_id
  error := aget sm.errors task_id

/-- `Task._set_task_context_and_run` (src/tasks/task.py lines 42-59):
`create_task`, `run_task`, invoke the target; on an exception `fail_task`
with the captured error and re-raise; on success `complete_task` with the
returned value.  Returns the final manager state together with the
re-raised exception or the returned value. -/
def Task.set_task_context_and_run {V E : Type} (sm : StatusManager V E)
    (task_uuid : String)
    (target : StatusManager V E → StatusManager V E × Except E (Option V)) :
    StatusManager V E × Except E (Option V) :=
  let sm1 := sm.create_task task_uuid
  let sm2 := sm1.run_task task_uuid
  match target sm2 with
  | (sm3, .error e) => (sm3.fail_task task_uuid (some e), .error e)
  | (sm3, .ok v) => (sm3.complete_task task_uuid .completed v, .ok v)

/-- A task target that publishes an intermediate result for task `"t"` and
then returns Python `None`. -/
def none_returning_target : StatusManager Int String →
    StatusManager Int String × Except String (Option Int) :=
  fun sm => (sm.set_intermediate_result "t" 42, Except.ok none)

/-- C4 counterexample: a target that returns normally (returning `None`
after publishing the intermediate result `42`) ends in status `completed`,
but the stored result is NOT the returned value: `complete_task` stores the
result only `if result is not None` (line 72), so the earlier intermediate
result `42` is still what `get_status_and_result` reports. -/
theorem complete_task_none_counterexample :
    (Task.set_task_context_and_run (⟨[], [], []⟩ : StatusManager Int String) "t"
        none_returning_target).2 = Except.ok none ∧
    (Task.set_task_context_and_run (⟨[], [], []⟩ : StatusManager Int String) "t"
        none_returning_target).1.get_status_and_result "t" =
      ⟨"completed", some 42, none⟩ := by
  constructor
  · rfl
  · rfl

/-- C4 (amended): running a `Task` whose target raises leaves that task id
with status `failed`, the raised exception stored as its error, and the
exception re-raised; a target that returns a non-`None` value leaves status
`completed` with that value stored as the result; a target that returns
`None` leaves status `completed` with the stored results untouched (the
return value is stored only `if result is not None`); and the status of a
task id with no status entry reads `not_found`. -/
theorem task_lifecycle (V E : Type) (sm : StatusManager V E) (tid : String)
    (target : StatusManager V E → StatusManager V E × Except E (Option V))
    (sm3 : StatusManager V E) (r : Except E (Option V))
    (h : target ((sm.create_task tid).run_task tid) = (sm3, r)) :
    (∀ e, r = .error e →
      Task.set_task_context_and_run sm tid target = (sm3.fail_task tid (some e), .error e) ∧
      (sm3.fail_task tid (some e)).get_status tid = "failed" ∧
      aget (sm3.fail_task tid (some e)).errors tid = some e) ∧
    (∀ v, r = .ok (some v) →
      Task.set_task_context_and_run sm tid target =
        (sm3.complete_task tid .completed (some v), .ok (some v)) ∧
      (sm3.complete_task tid .completed (some v)).get_status tid = "completed" ∧
      aget (sm3.complete_task tid .completed (some v)).results tid = some v) ∧
    (r = .ok none →
      Task.set_task_context_and_run sm tid target =
        (sm3.complete_task tid .completed none, .ok none) ∧
      (sm3.complete_task tid .completed none).get_status tid = "completed" ∧
      (sm3.complete_task tid .completed none).results = sm3.results) ∧
    (∀ (sm' : StatusManager V E) (tid' : String), aget sm'.status tid' = none →
      sm'.get_status tid' = "not_found") := by
  refine ⟨?_, ?_, ?_, ?_⟩
  · rintro e rfl
    refine ⟨?_, ?_, ?_⟩
    · simp only [Task.set_task_context_and_run, h]
    · unfold StatusManager.get_status StatusManager.fail_task StatusManager.set_status
      dsimp only
      rw [aget_aset]
      rfl
    · unfold StatusManager.fail_task StatusManager.set_status
      dsimp only
      exact aget_aset sm3.errors tid e
  · rintro v rfl
    refine ⟨?_, ?_, ?_⟩
    · simp only [Task.set_task_context_and_run, h]
    · unfold StatusManager.get_status StatusManager.complete_task
        StatusManager.set_status StatusManager.set_result
      dsimp only
      rw [aget_aset]
      rfl
    · unfold StatusManager.complete_task StatusManager.set_status StatusManager.set_result
      dsimp only
      exact aget_aset sm3.results tid v
  · rintro rfl
    refine ⟨?_, ?_, rfl⟩
    · simp only [Task.set_task_context_and_run, h]
    · unfold StatusManager.get_status StatusManager.complete_task StatusManager.set_status
      dsimp only
      rw [aget_aset]
      rfl
  · intro sm' tid' h'
    unfold StatusManager.get_status
    rw [h']
    rfl

/-- Witness for `task_lifecycle`: a raising target on the empty manager. -/
theorem task_lifecycle_witness :
    let target : StatusManager Int String →
        StatusManager Int String × Except String (Option Int) :=
      fun sm => (sm, Except.error "boom")
    Task.set_task_context_and_run (⟨[], [], []⟩ : StatusManager Int String) "t" target =
        (((⟨[], [], []⟩ : StatusManager Int String).create_task "t").run_task "t"
          |>.fail_task "t" (some "boom"), .error "boom") ∧
      ((((⟨[], [], []⟩ : StatusManager Int String).create_task "t").run_task "t").fail_task
        "t" (some "boom")).get_status "t" = "failed" := by
  intro target
  have h := task_lifecycle Int String ⟨[], [], []⟩ "t" target
    ((((⟨[], [], []⟩ : StatusManager Int String).create_task "t")).run_task "t")
    (.error "boom") rfl
  obtain ⟨hfail, _, _, _⟩ := h
  obtain ⟨h1, h2, _⟩ := hfail "boom" rfl
  exact ⟨h1, h2⟩

/-- C10: `fail_task` only touches the status and error of the given task id:
the stored results are left entirely unchanged, so any intermediate result
published before the failure is still what `get_status_and_result` returns
afterwards (together with status `failed` and the captured error). -/
theorem fail_task_preserves_results (V E : Type) (sm : StatusManager V E) (tid : String)
    (e : Option E) :
    (sm.fail_task tid e).results = sm.results ∧
    ((sm.fail_task tid e).get_status_and_result tid).result =
      (sm.get_status_and_result tid).result ∧
    (sm.fail_task tid e).get_status tid = "failed" ∧
    (∀ err, e = some err → aget (sm.fail_task tid e).errors tid = some err) := by
  refine ⟨rfl, rfl, ?_, ?_⟩
  · unfold StatusManager.get_status StatusManager.fail_task StatusManager.set_status
    dsimp only
    rw [aget_aset]
    rfl
  · rintro err rfl
    unfold StatusManager.fail_task StatusManager.set_status
    dsimp only
    exact aget_aset sm.errors tid err

/-- Witness for `fail_task_preserves_results` on a manager holding an
intermediate result for the failing task. -/
theorem fail_task_preserves_results_witness :
    ((⟨[("t", .running)], [("t", 7)], []⟩ : StatusManager Int String).fail_task "t"
        (some "boom")).results = [("t", 7)] ∧
    (((⟨[("t", .running)], [("t", 7)], []⟩ : StatusManager Int String).fail_task "t"
        (some "boom")).get_status_and_result "t").result = some 7 ∧
    ((⟨[("t", .running)], [("t", 7)], []⟩ : StatusManager Int String).fail_task "t"
        (some "boom")).get_status "t" = "failed" := by
  have h := fail_task_preserves_results Int String ⟨[("t", .running)], [("t", 7)], []⟩ "t"
    (some "boom")
  obtain ⟨h1, h2, h3, _⟩ := h
  exact ⟨h1, by rw [h2]; rfl, h3⟩

/-! ## DeezerWrapper helpers (src/api_clients/wrappers.py) -/

/-- `DeezerWrapper.BACKBONE_PRIORITIES` (lines 27-31). -/
def BACKBONE_PRIORITIES : BType → Nat
  | .artist => 1
  | .album => 2
  | .track => 3

/-- `DeezerWrapper.TYPE_REC_WEIGHT` (lines 34-40). -/
def TYPE_REC_WEIGHT : BType → Int
  | .album => 1
  | .artist => 1
  | .track => 3

/-- `DeezerWrapper.REC_SIZE` (line 16). -/
def REC_SIZE : Nat := 5

instance : IsTotal BType (fun a b => BACKBONE_PRIORITIES a ≤ BACKBONE_PRIORITIES b) :=
  ⟨fun a b => Nat.le_total (BACKBONE_PRIORITIES a) (BACKBONE_PRIORITIES b)⟩

instance : IsTrans BType (fun a b => BACKBONE_PRIORITIES a ≤ BACKBONE_PRIORITIES b) :=
  ⟨fun _ _ _ => Nat.le_trans⟩

/-- `DeezerWrapper.get_backbone_type` (lines 62-75): sort the allowed types
by their fixed priority (Python's stable sort) and take the first;
`next(iter([]))` raises `StopIteration`, modeled by `none`. -/
def DeezerWrapper.get_backbone_type (restricted_types : List BType) : Option BType :=
  (List.insertionSort (fun a b => BACKBONE_PRIORITIES a ≤ BACKBONE_PRIORITIES b)
    restricted_types).head?

/-- C7: for every non-empty list of allowed types, `get_backbone_type`
returns artist if present, else album if present, else track -- the member
of highest fixed priority under artist > album > track. -/
theorem get_backbone_type_priority (l : List BType) (hl : l ≠ []) :
    DeezerWrapper.get_backbone_type l =
      some (if BType.artist ∈ l then .artist else if BType.album ∈ l then .album
        else .track) := by
  unfold DeezerWrapper.get_backbone_type
  have hperm := List.perm_insertionSort
    (fun a b => BACKBONE_PRIORITIES a ≤ BACKBONE_PRIORITIES b) l
  have hsorted := List.sorted_insertionSort
    (fun a b => BACKBONE_PRIORITIES a ≤ BACKBONE_PRIORITIES b) l
  cases hs : List.insertionSort
      (fun a b => BACKBONE_PRIORITIES a ≤ BACKBONE_PRIORITIES b) l with
  | nil =>
    exfalso
    have := hperm.length_eq
    rw [hs] at this
    exact hl (List.length_eq_zero.mp this.symm)
  | cons h t =>
    rw [hs] at hperm hsorted
    have hmem : h ∈ l := hperm.mem_iff.mp (List.mem_cons_self h t)
    have hmin : ∀ x ∈ l, BACKBONE_PRIORITIES h ≤ BACKBONE_PRIORITIES x := by
      intro x hx
      cases List.mem_cons.mp (hperm.mem_iff.mpr hx) with
      | inl he => rw [he]
      | inr ht => exact (List.sorted_cons.mp hsorted).1 x ht
    simp only [List.head?]
    by_cases ha : BType.artist ∈ l
    · rw [if_pos ha]
      have := hmin _ ha
      cases h with
      | artist => rfl
      | album => simp [BACKBONE_PRIORITIES] at this
      | track => simp [BACKBONE_PRIORITIES] at this
    · rw [if_neg ha]
      by_cases hb : BType.album ∈ l
      · rw [if_pos hb]
        have := hmin _ hb
        cases h with
        | artist => exact absurd hmem ha
        | album => rfl
        | track => simp [BACKBONE_PRIORITIES] at this
      · rw [if_neg hb]
        cases h with
        | artist => exact absurd hmem ha
        | album => exact absurd hmem hb
        | track => rfl

/-- Witness for `get_backbone_type_priority` at `[track, album]`. -/
theorem get_backbone_type_priority_witness :
    DeezerWrapper.get_backbone_type [BType.track, BType.album] = some BType.album := by
  have h := get_backbone_type_priority [BType.track, BType.album] (by decide)
  rw [h]
  decide

/-! ## MatchScorer (DeezerWrapper._match_score, utils.order_words)

The two compared strings are modeled as lists of Unicode code points, which
makes Python's `str.split`, `str.lower`, `sorted` and `str.ljust` directly
definable.  `difflib.SequenceMatcher(...).ratio()` is Python-stdlib code
outside this repository (an external similarity capability); it is an
arbitrary function parameter `ratio`, so every theorem below holds for
every possible similarity function. -/

/-- Python strings, as lists of Unicode code points. -/
abbrev PyStr := List Nat

/-- `str.lower` on one code point, for the ASCII range (the only letters the
repository's fixed keyword examples use). -/
def pyLower (c : Nat) : Nat := if 65 ≤ c ∧ c ≤ 90 then c + 32 else c

/-- `str.split(sep)` for a one-character separator: split at every
occurrence, keeping empty pieces (`"a  b".split(" ") == ["a", "", "b"]`). -/
def pySplitAux (sepc : Nat) : PyStr → PyStr → List PyStr
  | [], cur => [cur.reverse]
  | c :: rest, cur =>
    if c = sepc then cur.reverse :: pySplitAux sepc rest []
    else pySplitAux sepc rest (c :: cur)

def pySplit (sepc : Nat) (s : PyStr) : List PyStr := pySplitAux sepc s []

/-- `str.ljust(width)`: right-pad with spaces up to `width`. -/
def pyLjust (s : PyStr) (width : Nat) : PyStr :=
  s ++ List.replicate (width - s.length) 32

/-- `order_words` (src/commons/utils.py lines 40-56) with `sep = " "`:
join the alphabetically sorted words back with spaces, then right-pad when a
positive `fixed_len` is given. -/
def order_words (s : PyStr) (fixed_len : Nat) : PyStr :=
  let ordered := List.intercalate [32] (List.insertionSort (· ≤ ·) (pySplit 32 s))
  if fixed_len = 0 then ordered else pyLjust ordered fixed_len

/-- What `_match_score` reads off a `deezer.Resource` via `ResourceFactory`:
its type, its derived full name (title plus artist plus, for tracks, album
title) and its popularity percentage. -/
structure DeezerCandidate where
  ctype : BType
  full_name : PyStr
  popularity : Int
  deriving DecidableEq, Repr

/-- `30 + 70 + 70` (wrappers.py line 284): artist + album + track name caps. -/
def MAX_FULL_NAME_LEN : Nat := 30 + 70 + 70

/-- `DeezerWrapper._match_score` (src/api_clients/wrappers.py lines 254-317):
`2 * w_str - 0.1 * w_type + w_pop`, where `w_str` compares the two
lowercased, word-sorted, right-padded strings with `ratio`, `w_type` is the
normalized index of the candidate's type in `types_priority`
(`list.index` raises `ValueError` when absent, modeled by `none`), and
`w_pop` is the popularity percent, sign-flipped in hipster mode. -/
def DeezerWrapper.match_score (ratio : PyStr → PyStr → ℚ) (candidate : DeezerCandidate)
    (keywords : PyStr) (types_priority : List BType) (hipster_mode : Bool) : Option ℚ :=
  if candidate.ctype ∈ types_priority then
    let w_str := ratio (order_words (keywords.map pyLower) MAX_FULL_NAME_LEN)
      (order_words (candidate.full_name.map pyLower) MAX_FULL_NAME_LEN)
    let w_type : ℚ := (types_priority.indexOf candidate.ctype : ℚ) /
      (max (types_priority.length - 1) 1 : ℕ)
    let hipster_multiplier : ℚ := if hipster_mode then -1 else 1
    let w_pop : ℚ := hipster_multiplier * (candidate.popularity : ℚ) / 100
    some (2 * w_str - (1 / 10) * w_type + w_pop)
  else
    none

theorem pyLower_space (c : Nat) : pyLower c = 32 ↔ c = 32 := by
  unfold pyLower
  split <;> omega

theorem pySplitAux_map_pyLower :
    ∀ (s cur : PyStr), pySplitAux 32 (s.map pyLower) (cur.map pyLower) =
      (pySplitAux 32 s cur).map (List.map pyLower)
  | [], cur => by
    simp [pySplitAux, List.map_reverse]
  | c :: rest, cur => by
    by_cases hc : c = 32
    · subst hc
      have h32 : pyLower 32 = 32 := by decide
      simp only [List.map_cons, h32, pySplitAux, if_pos rfl]
      rw [show ([] : PyStr) = List.map pyLower [] from rfl]
      rw [pySplitAux_map_pyLower rest []]
      simp [List.map_reverse]
    · have hc' : pyLower c ≠ 32 := fun h => hc ((pyLower_space c).mp h)
      simp only [List.map_cons, pySplitAux, if_neg hc, if_neg hc']
      rw [show pyLower c :: List.map pyLower cur = List.map pyLower (c :: cur) from rfl]
      exact pySplitAux_map_pyLower rest (c :: cur)

theorem pySplit_map_pyLower (s : PyStr) :
    pySplit 32 (s.map pyLower) = (pySplit 32 s).map (List.map pyLower) := by
  unfold pySplit
  rw [show ([] : PyStr) = List.map pyLower [] from rfl]
  exact pySplitAux_map_pyLower s []

theorem order_words_of_split_perm (s t : PyStr) (fixed_len : Nat)
    (h : (pySplit 32 s).Perm (pySplit 32 t)) :
    order_words s fixed_len = order_words t fixed_len := by
  unfold order_words
  have hsorted_eq : List.insertionSort (· ≤ ·) (pySplit 32 s) =
      List.insertionSort (· ≤ ·) (pySplit 32 t) := by
    apply List.eq_of_perm_of_sorted
      ((List.perm_insertionSort _ _).trans (h.trans (List.perm_insertionSort _ _).symm))
      (List.sorted_insertionSort _ _) (List.sorted_insertionSort _ _)
  rw [hsorted_eq]

/-- C9: permuting the space-separated words of the keyword string never
changes `_match_score` -- for every candidate, every types-priority list,
every hipster flag, and every similarity function `ratio`. -/
theorem match_score_word_order_invariant (ratio : PyStr → PyStr → ℚ)
    (candidate : DeezerCandidate) (types_priority : List BType) (hipster_mode : Bool)
    (keywords keywords' : PyStr)
    (h : (pySplit 32 keywords).Perm (pySplit 32 keywords')) :
    DeezerWrapper.match_score ratio candidate keywords types_priority hipster_mode =
      DeezerWrapper.match_score ratio candidate keywords' types_priority hipster_mode := by
  unfold DeezerWrapper.match_score
  have hwords : order_words (keywords.map pyLower) MAX_FULL_NAME_LEN =
      order_words (keywords'.map pyLower) MAX_FULL_NAME_LEN := by
    apply order_words_of_split_perm
    rw [pySplit_map_pyLower, pySplit_map_pyLower]
    exact h.map (List.map pyLower)
  rw [hwords]

/-- Witness for `match_score_word_order_invariant`: `"bob alice"` versus
`"alice bob"`, with exact string equality as the similarity function. -/
theorem match_score_word_order_invariant_witness :
    (pySplit 32 [98, 111, 98, 32, 97, 108, 105, 99, 101]).Perm
      (pySplit 32 [97, 108, 105, 99, 101, 32, 98, 111, 98]) ∧
    DeezerWrapper.match_score (fun a b => if a = b then 1 else 0)
        ⟨BType.track, [98, 111, 98], 50⟩ [98, 111, 98, 32, 97, 108, 105, 99, 101]
        [BType.track, BType.artist, BType.album] false =
      DeezerWrapper.match_score (fun a b => if a = b then 1 else 0)
        ⟨BType.track, [98, 111, 98], 50⟩ [97, 108, 105, 99, 101, 32, 98, 111, 98]
        [BType.track, BType.artist, BType.album] false :=
  ⟨by decide, match_score_word_order_invariant _ _ _ _ _ _ (by decide)⟩

/-! ## GraphExpander (DeezerWrapper.find_related and its collaborators) -/

/-- `DeezerWrapper.ALL_TYPES` (lines 18-24). -/
def DeezerWrapper.ALL_TYPES : List BType := [.album, .artist, .track]

/-- The CatalogProvider capability consumed by the expander
(`ResourceFactory.dive` / `ResourceFactory.explore`, which call the external
Deezer API): given a source item, a target type and a limit, return related
items.  External collaborator, hence a parameter of the embedding. -/
structure Provider where
  dive : Resource → BType → Int → List Resource
  explore : Resource → BType → Int → List Resource

/-- `commons.random_color_generator` draws a random CSS color; randomness is
modeled by a fixed choice (no claim depends on the drawn value). -/
def random_color_generator : String := "aliceblue"

/-- `set.update` on the accumulated result set: add the new items, skipping
values already present (Python set iteration order is modeled as insertion
order). -/
def set_update (acc new_items : List Resource) : List Resource :=
  new_items.foldl (fun a r => if a.contains r then a else a ++ [r]) acc

/-- One `if limit := limit_per_type.get(t): ...` block of
`recommend_from_item`: skipped when the type is absent or its limit is
falsy (0); otherwise `dive` or `explore` according to
`exploration_mode[t]`, whose missing key (`KeyError`) is `none`. -/
def recommend_step (prov : Provider) (item : Resource)
    (limit_per_type : List (BType × Int)) (em : List (BType × Bool)) (t : BType)
    (acc : List Resource) : Option (List Resource) :=
  match kfind limit_per_type t with
  | none => some acc
  | some limit =>
    if limit = 0 then some acc
    else
      match kfind em t with
      | none => none
      | some ex =>
        if ex then some (set_update acc (prov.explore item t limit))
        else some (set_update acc (prov.dive item t limit))

/-- `DeezerWrapper.recommend_from_item` (lines 614-685): union the dive or
explore results for track, then album, then artist, in that order. -/
def DeezerWrapper.recommend_from_item (prov : Provider) (item_ : Option Resource)
    (limit_per_type : List (BType × Int))
    (exploration_mode : Option (List (BType × Bool)) := none) : Option (List Resource) :=
  match item_ with
  | none => some []
  | some item =>
    let em := exploration_mode.getD (limit_per_type.map (fun p => (p.1, false)))
    (recommend_step prov item limit_per_type em .track []).bind (fun acc1 =>
      (recommend_step prov item limit_per_type em .album acc1).bind (fun acc2 =>
        recommend_step prov item limit_per_type em .artist acc2))

/-- `DeezerWrapper._scale_per_type` (lines 77-89): scale the fixed relative
type weights to the limit and zip them back onto the types (`none` models
the `ValueError` escaping from `scale_weights`). -/
def DeezerWrapper.scale_per_type (limit : Int) (restricted_types : List BType) :
    Option (List (BType × Int)) :=
  (scale_weights (restricted_types.map TYPE_REC_WEIGHT) limit).map
    (fun scaled => restricted_types.zip scaled)

/-- `ItemStore._popularity_node_size` (src/items/store.py lines 73-77). -/
def ItemStore.popularity_node_size (popularity : Option Int) : Nat :=
  match popularity with
  | none => 10
  | some p => if p ≤ 20 then 10 else (p / 2).toNat

/-- Modelled from the spec: `ItemStore.add_nodes` is called by the expander
(wrappers.py lines 369, 482, 536, 593) but absent from src/items/store.py (a
stale store module; only `_add_node` and the parse helpers exist there).
Spec section 4.1: "for each item, cache it globally if unseen, then insert a
node if absent in the target graph, with size derived from popularity
(monotonic, clamped, never zero) ...; if `taskId` given, publishes a
snapshot"; the size rule is the store's own `_popularity_node_size`. -/
def ItemStore.add_nodes (st : ItemStore) (session_id graph_key : String)
    (items_ : List Resource) (depth : Nat) (task_id : Option String)
    (is_backbone : Bool) (selected_types : Option (List BType) := none)
    (color : Option String := none) : ItemStore :=
  let st1 := st.init_graph session_id graph_key
  let st2 := items_.foldl (fun acc item =>
    let acc1 := if (aget acc.items item.rid).isSome then acc
      else { acc with items := aset acc.items item.rid item }
    match acc1.get_graph session_id graph_key with
    | none => acc1
    | some g =>
      if (g.nodes.find? (fun p => p.1 = item.rid)).isSome then acc1
      else acc1.put_graph session_id graph_key (g.add_node item.rid
        { size := some (ItemStore.popularity_node_size item.popularity)
          color := color
          selected_types := some (values_to_str
            ((selected_types.getD DeezerWrapper.ALL_TYPES).map BType.value) "+")
          graph_key := some graph_key
          node_type := some item.rtype.value
          depth := some depth
          is_backbone := some is_backbone })) st1
  match task_id with
  | none => st2
  | some tid => st2.add_nodes_edges_to_task session_id graph_key tid

/-- `find_related`'s `exploration_mode` argument: a single flag or an
explicit per-type map (Python `bool | Dict[str, bool]`). -/
inductive EMode
  | flag (b : Bool)
  | emap (m : List (BType × Bool))
  deriving DecidableEq, Repr

/-- Set equality of the exploration-map keys with
`{backbone_type, *star_types}` (wrappers.py lines 448-449). -/
def emode_keys_ok (m : List (BType × Bool)) (backbone_type : BType)
    (star_types : List BType) : Bool :=
  (backbone_type :: star_types).all (fun t => (m.map Prod.fst).contains t) &&
    (m.map Prod.fst).all (fun t => ((backbone_type :: star_types).contains t))

/-- `DeezerWrapper.find_related` (src/api_clients/wrappers.py lines 411-557),
with a structural fuel equal to the remaining backbone depth so that the
definition evaluates by reduction.  `none` models any raised exception
(`ValueError` on a bad exploration map, the length assert, `KeyError` /
`ValueError` from collaborators); `some (st, stars)` is the store after all
side effects plus the returned star items. -/
def DeezerWrapper.find_related_rec (prov : Provider) :
    Nat → ItemStore → String → String → Option Resource → Nat → Nat → BType →
    List BType → Option String → EMode → Option Int → Option String →
    Option (ItemStore × List Resource)
  | fuel, st, session_id, graph_key, item_, depth, max_depth, backbone_type,
    star_types, task_id, exploration_mode, limit, color_kw =>
    match item_ with
    | none => some (st, [])
    | some item =>
      if depth > max_depth then some (st, [])
      else
        match fuel with
        | 0 => none
        | fuel + 1 =>
          match (match exploration_mode with
                 | .emap m =>
                   if emode_keys_ok m backbone_type star_types then some m else none
                 | .flag b =>
                   some (((backbone_type :: star_types).dedup).map (fun t => (t, b)))) with
          | none => none
          | some em =>
            if backbone_type ∈ DeezerWrapper.ALL_TYPES then
              match DeezerWrapper.recommend_from_item prov (some item)
                  [(backbone_type, 1)] (some em) with
              | none => none
              | some backbone_extension =>
                if backbone_extension.length > 1 then none
                else
                  let st1 := st.add_nodes session_id graph_key backbone_extension depth
                    task_id true (some [backbone_type]) none
                  match st1.relate session_id graph_key item.rid
                      (backbone_extension.map (fun r => r.rid)) task_id (some false)
                      (some NodeColor.BACKBONE) none none with
                  | none => none
                  | some st2 =>
                    match (match backbone_extension with
                           | [] => some st2
                           | ext0 :: _ =>
                             ((DeezerWrapper.find_related_rec prov fuel st2 session_id
                               graph_key (some ext0) (depth + 1) max_depth backbone_type
                               star_types task_id (.emap em) limit
                               (some NodeColor.BACKBONE) :
                               Option (ItemStore × List Resource)).map
                                 (fun (r : ItemStore × List Resource) => r.1))) with
                    | none => none
                    | some st3 =>
                      let star_types2 := star_types.filter (fun t => t ≠ backbone_type)
                      if star_types2.isEmpty then some (st3, [])
                      else
                        let lim : Int := match limit with
                          | some l => if l = 0 then (REC_SIZE : Int) else l
                          | none => (REC_SIZE : Int)
                        match DeezerWrapper.scale_per_type lim star_types2 with
                        | none => none
                        | some limit_per_type =>
                          match DeezerWrapper.recommend_from_item prov (some item)
                              limit_per_type (some em) with
                          | none => none
                          | some star_items =>
                            let st4 := st3.add_nodes session_id graph_key star_items
                              (depth + 2) task_id false none
                              (some (color_kw.getD random_color_generator))
                            match st4.relate session_id graph_key item.rid
                                ((star_items : List Resource).map (fun (r : Resource) => r.rid)) task_id (some false)
                                (some NodeColor.BACKBONE) (some true) none with
                            | none => none
                            | some st5 => some (st5, star_items)
            else none

def DeezerWrapper.find_related (prov : Provider) (st : ItemStore)
    (session_id graph_key : String) (item_ : Option Resource) (depth max_depth : Nat)
    (backbone_type : BType) (star_types : List BType) (task_id : Option String)
    (exploration_mode : EMode) (limit : Option Int) (color_kw : Option String) :
    Option (ItemStore × List Resource) :=
  DeezerWrapper.find_related_rec prov (max_depth + 1 - depth) st session_id graph_key
    item_ depth max_depth backbone_type star_types task_id exploration_mode limit color_kw

/-- A provider with exactly one track-dive recommendation `"x"` for the
track `"i"`. -/
def demo_provider : Provider where
  dive := fun item t _ =>
    if item.rid = "i" ∧ t = BType.track then [⟨"x", .track, none⟩] else []
  explore := fun _ _ _ => []

/-- One `find_related` step over `demo_provider` from the track `"i"`, at
`depth = max_depth = 1`, backbone type track, allowed types `[track]`. -/
def find_related_demo : Option (ItemStore × List Resource) :=
  DeezerWrapper.find_related demo_provider (ItemStore.empty.init_graph "s" "g") "s" "g"
    (some ⟨"i", .track, none⟩) 1 1 .track [.track] none (.flag false) none none

/-- C6: in this run a backbone extension (`"x"`) IS found and inserted as a
backbone NODE (`is_backbone=True`, first conjunct `some true`), but the edge
connecting it to its backbone parent is inserted with `is_backbone=False`
(second conjunct) -- wrappers.py line 500 passes `is_backbone=False` to
`relate`, contradicting the spec's "edge to its parent marked
isBackbone=true" and the adjacent node insertion (line 489,
`is_backbone=True`) and the seed edges from the query node (line 384,
`is_backbone=True`). -/
theorem find_related_backbone_edge_not_marked :
    ((find_related_demo.bind (fun r => r.1.get_graph "s" "g")).bind
        (fun g => (g.nodes.find? (fun p => p.1 = "x")).map (fun p => p.2.is_backbone))) =
      some (some true) ∧
    ((find_related_demo.bind (fun r => r.1.get_graph "s" "g")).bind
        (fun g => g.edge "x" "i")).map (fun q => q.is_backbone) = some (some false) := by
  constructor
  · rfl
  · rfl

/-! ## Recursive successors (spec section 4.1 `getSuccessors` with `recursive=true`)

src/api.py calls `ItemStore().get_successors(..., recursive=True)` (delete
cascading, successors/predecessors endpoints), but src/items/store.py is a
stale module whose `get_successors` takes no `recursive` flag; the recursive
variant is modelled from the spec below. -/

/-- Direct successors of a node in an `nx.DiGraph`: targets of the edges
leaving it. -/
def Graph.successors (g : Graph) (n : String) : List String :=
  (g.edges.filter (fun p => p.1.1 = n)).map (fun p => p.1.2)

/-- Every id a graph mentions (nodes and edge endpoints) -- the finite
universe a traversal can visit. -/
def Graph.all_ids (g : Graph) : List String :=
  g.nodes.map Prod.fst ++ g.edges.map (fun e => e.1.1) ++ g.edges.map (fun e => e.1.2)

theorem successors_subset_all_ids (g : Graph) (n m : String)
    (h : m ∈ g.successors n) : m ∈ g.all_ids := by
  unfold Graph.successors at h
  obtain ⟨p, hp, rfl⟩ := List.mem_map.mp h
  unfold Graph.all_ids
  refine List.mem_append.mpr (Or.inr ?_)
  exact List.mem_map.mpr ⟨p, List.mem_of_mem_filter hp, rfl⟩

theorem successors_eq_nil_of_not_mem (g : Graph) (n : String) (h : n ∉ g.all_ids) :
    g.successors n = [] := by
  unfold Graph.successors
  rw [List.filter_eq_nil_iff.mpr, List.map_nil]
  intro p hp hpn
  apply h
  unfold Graph.all_ids
  refine List.mem_append.mpr (Or.inl (List.mem_append.mpr (Or.inr ?_)))
  refine List.mem_map.mpr ⟨p, hp, ?_⟩
  simpa using hpn

theorem length_filter_not_mem_cons_le (l visited : List String) (n : String) :
    (l.filter (fun i => decide (¬i ∈ n :: visited))).length ≤
      (l.filter (fun i => decide (¬i ∈ visited))).length := by
  induction l with
  | nil => simp
  | cons a t ih =>
    simp only [List.filter_cons]
    by_cases hav : a ∈ visited
    · have h1 : decide (¬a ∈ visited) = false := by simp [hav]
      have h2 : decide (¬a ∈ n :: visited) = false := by simp [List.mem_cons, hav]
      rw [h1, h2]
      simpa using ih
    · by_cases han : a = n
      · have h1 : decide (¬a ∈ visited) = true := by simp [hav]
        have h2 : decide (¬a ∈ n :: visited) = false := by simp [List.mem_cons, han]
        rw [h1, h2]
        simp only [if_true, if_false, ite_true, ite_false, List.length_cons]
        exact Nat.le_succ_of_le ih
      · have h1 : decide (¬a ∈ visited) = true := by simp [hav]
        have h2 : decide (¬a ∈ n :: visited) = true := by simp [List.mem_cons, han, hav]
        rw [h1, h2]
        simpa using ih

theorem length_filter_not_mem_cons_lt (l visited : List String) (n : String)
    (hn : n ∈ l) (hnv : n ∉ visited) :
    (l.filter (fun i => decide (¬i ∈ n :: visited))).length <
      (l.filter (fun i => decide (¬i ∈ visited))).length := by
  induction l with
  | nil => simp at hn
  | cons a t ih =>
    simp only [List.filter_cons]
    by_cases han : a = n
    · have h1 : decide (¬a ∈ visited) = true := by simp [han, hnv]
      have h2 : decide (¬a ∈ n :: visited) = false := by simp [List.mem_cons, han]
      rw [h1, h2]
      simp only [if_true, if_false, ite_true, ite_false, List.length_cons]
      exact Nat.lt_succ_of_le (length_filter_not_mem_cons_le t visited n)
    · have hn' : n ∈ t := by
        cases List.mem_cons.mp hn with
        | inl h => exact absurd h.symm han
        | inr h => exact h
      by_cases hav : a ∈ visited
      · have h1 : decide (¬a ∈ visited) = false := by simp [hav]
        have h2 : decide (¬a ∈ n :: visited) = false := by simp [List.mem_cons, hav]
        rw [h1, h2]
        simpa using ih hn'
      · have h1 : decide (¬a ∈ visited) = true := by simp [hav]
        have h2 : decide (¬a ∈ n :: visited) = true := by simp [List.mem_cons, han, hav]
        rw [h1, h2]
        simpa using ih hn'

/-- Modelled from the spec: the depth-first worklist traversal behind
`getSuccessors(recursive=true)` -- "a depth-first union over all
descendants/ancestors, explicitly tracking a visited set to prevent
infinite recursion on cycles".  Total on every graph, cyclic or not: each
step either marks an unvisited graph id (the unvisited portion of the
finite id universe shrinks) or shortens the worklist. -/
def Graph.dfs_succ (g : Graph) : List String → List String → List String
  | [], visited => visited
  | n :: stack, visited =>
    if n ∈ visited then g.dfs_succ stack visited
    else g.dfs_succ (g.successors n ++ stack) (n :: visited)
termination_by stack visited =>
  ((g.all_ids.filter (fun i => decide (¬i ∈ visited))).length, stack.length)
decreasing_by
  · apply Prod.Lex.right
    simp
  · rename_i hnv
    by_cases hmem : n ∈ g.all_ids
    · exact Prod.Lex.left _ _ (length_filter_not_mem_cons_lt g.all_ids visited n hmem hnv)
    · have hfilter : g.all_ids.filter (fun i => decide (¬i ∈ n :: visited)) =
          g.all_ids.filter (fun i => decide (¬i ∈ visited)) := by
        apply List.filter_congr
        intro x hx
        have hxn : x ≠ n := fun h => hmem (h ▸ hx)
        simp [List.mem_cons, hxn]
      rw [hfilter, successors_eq_nil_of_not_mem g n hmem]
      apply Prod.Lex.right
      simp

theorem dfs_succ_visited_subset (g : Graph) :
    ∀ (stack visited : List String), visited ⊆ g.dfs_succ stack visited := by
  intro stack visited
  induction stack, visited using Graph.dfs_succ.induct g with
  | case1 visited => simp [Graph.dfs_succ]
  | case2 n stack visited h ih =>
    rw [Graph.dfs_succ, if_pos h]
    exact ih
  | case3 n stack visited h ih =>
    rw [Graph.dfs_succ, if_neg h]
    exact fun x hx => ih (List.mem_cons_of_mem n hx)

theorem dfs_succ_stack_subset (g : Graph) :
    ∀ (stack visited : List String), stack ⊆ g.dfs_succ stack visited := by
  intro stack visited
  induction stack, visited using Graph.dfs_succ.induct g with
  | case1 visited => simp
  | case2 n stack visited h ih =>
    rw [Graph.dfs_succ, if_pos h]
    intro x hx
    cases List.mem_cons.mp hx with
    | inl he => exact he ▸ dfs_succ_visited_subset g stack visited h
    | inr ht => exact ih ht
  | case3 n stack visited h ih =>
    rw [Graph.dfs_succ, if_neg h]
    intro x hx
    cases List.mem_cons.mp hx with
    | inl he =>
      exact he ▸ dfs_succ_visited_subset g (g.successors n ++ stack) (n :: visited)
        (List.mem_cons_self n visited)
    | inr ht => exact ih (List.mem_append_right _ ht)

/-- Soundness of the traversal: everything it returns was already visited or
is reachable (in zero or more successor steps) from some worklist entry. -/
theorem dfs_succ_sound (g : Graph) :
    ∀ (stack visited : List String) (m : String), m ∈ g.dfs_succ stack visited →
      m ∈ visited ∨ ∃ x ∈ stack,
        Relation.ReflTransGen (fun a b => b ∈ g.successors a) x m := by
  intro stack visited
  induction stack, visited using Graph.dfs_succ.induct g with
  | case1 visited =>
    intro m hm
    exact Or.inl (by simpa [Graph.dfs_succ] using hm)
  | case2 n stack visited h ih =>
    intro m hm
    rw [Graph.dfs_succ, if_pos h] at hm
    cases ih m hm with
    | inl hv => exact Or.inl hv
    | inr hr =>
      obtain ⟨x, hx, hreach⟩ := hr
      exact Or.inr ⟨x, List.mem_cons_of_mem n hx, hreach⟩
  | case3 n stack visited h ih =>
    intro m hm
    rw [Graph.dfs_succ, if_neg h] at hm
    cases ih m hm with
    | inl hv =>
      cases List.mem_cons.mp hv with
      | inl he =>
        exact Or.inr ⟨n, List.mem_cons_self n stack, he ▸ Relation.ReflTransGen.refl⟩
      | inr hvv => exact Or.inl hvv
    | inr hr =>
      obtain ⟨x, hx, hreach⟩ := hr
      cases List.mem_append.mp hx with
      | inl hsucc =>
        exact Or.inr ⟨n, List.mem_cons_self n stack,
          Relation.ReflTransGen.head hsucc hreach⟩
      | inr hstack => exact Or.inr ⟨x, List.mem_cons_of_mem n hstack, hreach⟩

/-- Closure of the traversal: the successors of every returned id that was
not already visited at the start are themselves returned. -/
theorem dfs_succ_closed (g : Graph) :
    ∀ (stack visited : List String) (x : String), x ∈ g.dfs_succ stack visited →
      x ∉ visited → ∀ y ∈ g.successors x, y ∈ g.dfs_succ stack visited := by
  intro stack visited
  induction stack, visited using Graph.dfs_succ.induct g with
  | case1 visited =>
    intro x hx hxv
    exact absurd (by simpa [Graph.dfs_succ] using hx) hxv
  | case2 n stack visited h ih =>
    intro x hx hxv y hy
    rw [Graph.dfs_succ, if_pos h] at hx ⊢
    exact ih x hx hxv y hy
  | case3 n stack visited h ih =>
    intro x hx hxv y hy
    rw [Graph.dfs_succ, if_neg h] at hx ⊢
    by_cases hxn : x = n
    · exact dfs_succ_stack_subset g (g.successors n ++ stack) (n :: visited)
        (List.mem_append_left _ (hxn ▸ hy))
    · exact ih x hx (by simp [List.mem_cons, hxn, hxv]) y hy

/-- Completeness of the traversal started with an empty visited list: every
id reachable from a worklist entry is returned. -/
theorem dfs_succ_complete (g : Graph) (stack : List String) (x m : String)
    (hx : x ∈ stack)
    (hreach : Relation.ReflTransGen (fun a b => b ∈ g.successors a) x m) :
    m ∈ g.dfs_succ stack [] := by
  induction hreach with
  | refl => exact dfs_succ_stack_subset g stack [] hx
  | @tail b c hab hbc ih =>
    exact dfs_succ_closed g stack [] b ih (by simp) c hbc

/-- Modelled from the spec: `getSuccessors(sessionId, graphKey, nodeId,
recursive)` (spec section 4.1) -- absent from src/items/store.py, whose
stale `get_successors` takes no `recursive` flag although src/api.py calls
it with `recursive=True`.  Read paths on an unknown session/graph return an
empty result; the recursive variant is the depth-first union over all
descendants seeded with the node's direct successors. -/
def ItemStore.get_successors (st : ItemStore) (session_id graph_key node_id : String)
    (recursive : Bool) : List String :=
  match st.get_graph session_id graph_key with
  | none => []
  | some g =>
    if recursive then g.dfs_succ (g.successors node_id) []
    else g.successors node_id

/-- C8: `get_successors` with `recursive=true` is a total function on every
graph -- cyclic or not (its traversal is well-founded by the visited set) --
and the finite id list it returns holds exactly the descendants of the start
node: the ids reachable from a direct successor in zero or more
directed-edge steps. -/
theorem get_successors_recursive_spec (st : ItemStore)
    (session_id graph_key node_id m : String) :
    m ∈ st.get_successors session_id graph_key node_id true ↔
      ∃ g, st.get_graph session_id graph_key = some g ∧
        ∃ x ∈ g.successors node_id,
          Relation.ReflTransGen (fun a b => b ∈ g.successors a) x m := by
  unfold ItemStore.get_successors
  cases hg : st.get_graph session_id graph_key with
  | none => simp
  | some g =>
    simp only [if_true, ite_true, Option.some_inj]
    constructor
    · intro hm
      cases dfs_succ_sound g (g.successors node_id) [] m hm with
      | inl hv => simp at hv
      | inr hr =>
        obtain ⟨x, hx, hreach⟩ := hr
        exact ⟨g, rfl, x, hx, hreach⟩
    · rintro ⟨g', hg', x, hx, hreach⟩
      obtain rfl : g = g' := hg'
      exact dfs_succ_complete g (g.successors node_id) x m hx hreach
